import Mathlib

/-!
A verification development for the F1 driver web crawler
(`scraper.py` and `app.py`).

The Python code extracts driver records from Wikipedia HTML using only the
`re` module.  We embed it shallowly:

* Python regular expressions are embedded via a small backtracking engine
  (`RE`, `mrun`, `reSearch`, `findAll`, `reSubAll`) that reproduces the
  `re` module's leftmost-match, alternation-priority and greedy/lazy
  backtracking semantics.  Every repetition operator appearing in the
  source patterns repeats a single-character class, which the engine
  supports directly (`starG`/`starL`/`plusG`/`plusL`); bounded repetitions
  such as `{1,3}` are unrolled with `opt`.
* The six `re.sub` passes of `clean` are deterministic (their repetition
  bodies exclude the closing delimiter), so they are embedded as direct
  recursive scanners, each documented with the exact pattern it
  implements.
* Ambient state is made explicit: the network is a function
  `fetchFn : String → String` (URL to response body, `""` meaning the
  fetch failed, exactly how `fetch` reports failure), and the system
  clock year is an explicit `todayYear : Int` parameter.
-/

namespace Crawler

/-! ## Character classes -/

/-- Python `\s` (ASCII part), also used by `str.strip()` / `str.split()`. -/
def isSpaceCh (c : Char) : Bool :=
  c = ' ' || c = '\t' || c = '\n' || c = '\r' || c = '\x0b' || c = '\x0c'

/-- Python `\d` (ASCII digits). -/
def isDigitCh (c : Char) : Bool :=
  '0' ≤ c && c ≤ '9'

/-- ASCII letter; `[a-z]` under `re.IGNORECASE`. -/
def isAsciiLetter (c : Char) : Bool :=
  ('a' ≤ c && c ≤ 'z') || ('A' ≤ c && c ≤ 'Z')

/-! ## A small backtracking regex engine

Success propagation is in continuation-passing style, so alternatives are
tried in Python's priority order and the first overall success wins, which
is exactly the `re` module's backtracking behavior. -/

/-- Regular expressions as used by the source patterns.  Repetition
operators range over single-character classes only, which covers every
pattern in `scraper.py` / `app.py`. -/
inductive RE where
  | eps : RE
  | cls (p : Char → Bool) : RE
  | lit (s : List Char) : RE
  | litci (s : List Char) : RE
  | seq (a b : RE) : RE
  | alt (a b : RE) : RE
  | opt (a : RE) : RE
  | grp (n : Nat) (a : RE) : RE
  | starG (p : Char → Bool) : RE
  | starL (p : Char → Bool) : RE
  | plusG (p : Char → Bool) : RE
  | plusL (p : Char → Bool) : RE

/-- Captured groups: group number to captured characters. -/
abbrev Caps := List (Nat × List Char)

/-- Case-insensitive prefix test (Python `re.IGNORECASE` literals). -/
def ciPrefixOf : List Char → List Char → Bool
  | [], _ => true
  | _ :: _, [] => false
  | a :: as, b :: bs => (a.toLower = b.toLower) && ciPrefixOf as bs

/-- Length of the maximal prefix run satisfying `p`. -/
def runLen (p : Char → Bool) (s : List Char) : Nat :=
  (s.takeWhile p).length

/-- Try consuming `n, n-1, …, lo` characters (greedy repetition order). -/
def tryDownTo (k : List Char → Option (List Char × Caps)) (s : List Char)
    (lo : Nat) : Nat → Option (List Char × Caps)
  | 0 => if lo = 0 then k s else none
  | n + 1 =>
    if n + 1 < lo then none
    else
      match k (s.drop (n + 1)) with
      | some r => some r
      | none => tryDownTo k s lo n

/-- Try consuming `j, j+1, …, j+rem` characters (lazy repetition
order). -/
def tryUp (k : List Char → Option (List Char × Caps)) (s : List Char) :
    Nat → Nat → Option (List Char × Caps)
  | j, 0 => k (s.drop j)
  | j, rem + 1 =>
    match k (s.drop j) with
    | some r => some r
    | none => tryUp k s (j + 1) rem

/-- The backtracking matcher.  `mrun r s c k` attempts to match `r` at the
head of `s` with captures-so-far `c`, calling continuation `k` on the
remainder; the first success in Python priority order is returned. -/
def mrun : RE → List Char → Caps →
    (List Char → Caps → Option (List Char × Caps)) → Option (List Char × Caps)
  | .eps, s, c, k => k s c
  | .cls p, s, c, k =>
    match s with
    | [] => none
    | ch :: t => if p ch then k t c else none
  | .lit l, s, c, k =>
    if l.isPrefixOf s then k (s.drop l.length) c else none
  | .litci l, s, c, k =>
    if ciPrefixOf l s then k (s.drop l.length) c else none
  | .seq a b, s, c, k => mrun a s c (fun s2 c2 => mrun b s2 c2 k)
  | .alt a b, s, c, k =>
    match mrun a s c k with
    | some r => some r
    | none => mrun b s c k
  | .opt a, s, c, k =>
    match mrun a s c k with
    | some r => some r
    | none => k s c
  | .grp n a, s, c, k =>
    mrun a s c (fun s2 c2 => k s2 ((n, s.take (s.length - s2.length)) :: c2))
  | .starG p, s, c, k => tryDownTo (fun s2 => k s2 c) s 0 (runLen p s)
  | .starL p, s, c, k => tryUp (fun s2 => k s2 c) s 0 (runLen p s)
  | .plusG p, s, c, k => tryDownTo (fun s2 => k s2 c) s 1 (runLen p s)
  | .plusL p, s, c, k =>
    if runLen p s = 0 then none
    else tryUp (fun s2 => k s2 c) s 1 (runLen p s - 1)

/-- Match `r` anchored at the head of `s`. -/
def matchAt (r : RE) (s : List Char) : Option (List Char × Caps) :=
  mrun r s [] (fun rest caps => some (rest, caps))

/-- Models `re.search` scanning: try each start position left to right; returns
the suffix where the match starts together with the match result. -/
def searchFrom (r : RE) : List Char → Option (List Char × (List Char × Caps))
  | [] =>
    match matchAt r [] with
    | some x => some ([], x)
    | none => none
  | ch :: t =>
    match matchAt r (ch :: t) with
    | some x => some (ch :: t, x)
    | none => searchFrom r t

/-- The characters consumed by a match that started at suffix `st` and
left remainder `rest`. -/
def matchedOf (st rest : List Char) : List Char :=
  st.take (st.length - rest.length)

/-- Models `re.search`: `some (group0, remainder, captures)` or `none`. -/
def reSearch (r : RE) (s : List Char) : Option (List Char × List Char × Caps) :=
  match searchFrom r s with
  | none => none
  | some (st, (rest, caps)) => some (matchedOf st rest, rest, caps)

/-- Models `re.finditer` / `re.findall` worker; the fuel starts at
`length + 1`, enough for every round of non-overlapping matching. -/
def findAllAux (r : RE) : Nat → List Char → List (List Char × Caps)
  | 0, _ => []
  | fuel + 1, s =>
    match searchFrom r s with
    | none => []
    | some (st, (rest, caps)) =>
      let m := matchedOf st rest
      if m.isEmpty then (m, caps) :: findAllAux r fuel (st.drop 1)
      else (m, caps) :: findAllAux r fuel rest

/-- All non-overlapping matches of `r` in `s`, left to right. -/
def findAll (r : RE) (s : List Char) : List (List Char × Caps) :=
  findAllAux r (s.length + 1) s

/-- Models `re.sub` worker. -/
def subAllAux (r : RE) (repl : Caps → List Char) : Nat → List Char → List Char
  | 0, s => s
  | fuel + 1, s =>
    match searchFrom r s with
    | none => s
    | some (st, (rest, caps)) =>
      let pre := s.take (s.length - st.length)
      let m := matchedOf st rest
      if m.isEmpty then
        match st with
        | [] => pre ++ repl caps
        | ch :: t => pre ++ repl caps ++ [ch] ++ subAllAux r repl fuel t
      else pre ++ repl caps ++ subAllAux r repl fuel rest

/-- Models `re.sub`: replace every non-overlapping match. -/
def reSubAll (r : RE) (repl : Caps → List Char) (s : List Char) : List Char :=
  subAllAux r repl (s.length + 1) s

/-! ## Python `str` helpers -/

/-- Models `str.strip()`: drop whitespace from both ends. -/
def pyStrip (l : List Char) : List Char :=
  ((l.dropWhile isSpaceCh).reverse.dropWhile isSpaceCh).reverse

/-- Split-at-whitespace worker for `str.split()` (no argument form). -/
def splitWsAux : List Char → List (List Char)
  | [] => [[]]
  | c :: t =>
    let r := splitWsAux t
    if isSpaceCh c then [] :: r
    else
      match r with
      | g :: gs => (c :: g) :: gs
      | [] => [[c]]

/-- Models `str.split()`: split on whitespace runs, dropping empty pieces. -/
def pySplitWs (l : List Char) : List (List Char) :=
  (splitWsAux l).filter (fun g => !g.isEmpty)

/-- The character `'0' + d` for a decimal digit `d`. -/
def digitChar (d : Nat) : Char := Char.ofNat (48 + d)

/-- Fuel-indexed base-10 digit extraction, least significant first. -/
def natDigitsAux : Nat → Nat → List Nat
  | 0, _ => []
  | fuel + 1, n => if n = 0 then [] else n % 10 :: natDigitsAux fuel (n / 10)

/-- The base-10 digits of `n`, least significant first. -/
def natDigits (n : Nat) : List Nat := natDigitsAux n n

/-- Python `str(n)` for a natural number (decimal). -/
def pyStrNat (n : Nat) : String :=
  if n = 0 then "0" else ⟨((natDigits n).map digitChar).reverse⟩

/-- Python `str(i)` for an integer (decimal, `-` sign for negatives). -/
def pyStrInt (i : Int) : String :=
  if i < 0 then "-" ++ pyStrNat i.natAbs else pyStrNat i.toNat

/-! ## The text normalizer `clean`

`clean` applies six `re.sub` passes and a whitespace collapse.  Each
pass's repetition body excludes its closing delimiter, so Python's
backtracking is deterministic and each pass is a left-to-right scanner:
at each position, either the pattern matches (consume it, emit the
replacement, continue after the match) or the scanner emits one character
and advances.  The helper `…Try` functions decide the "match here?"
question for the scanners. -/

/-- After a `'<'`: does `[^>]+>` match?  Returns the rest after `'>'`.
Greedy `[^>]+` runs to the first `'>'`, which must exist and be at
distance at least one. -/
def tagTry (t : List Char) : Option (List Char) :=
  match t.drop ((t.takeWhile (fun c => c ≠ '>')).length) with
  | '>' :: rest =>
    if (t.takeWhile (fun c => c ≠ '>')).isEmpty then none else some rest
  | _ => none

/-- Fuel-indexed worker for `re.sub(r'<[^>]+>', ' ', ·)`; every
recursive call is on a strictly shorter list, so any fuel of at least
`length + 1` computes the full scan. -/
def tagScanF : Nat → List Char → List Char
  | 0, l => l
  | _ + 1, [] => []
  | fuel + 1, c :: t =>
    if c = '<' then
      match tagTry t with
      | some rest => ' ' :: tagScanF fuel rest
      | none => '<' :: tagScanF fuel t
    else c :: tagScanF fuel t

/-- Models `re.sub(r'<[^>]+>', ' ', ·)` -/
def tagScan (l : List Char) : List Char := tagScanF (l.length + 1) l

/-- Fuel-indexed worker for `re.sub(r'&amp;', '&', ·)`. -/
def ampScanF : Nat → List Char → List Char
  | 0, l => l
  | _ + 1, [] => []
  | fuel + 1, c :: t =>
    if List.isPrefixOf ['&', 'a', 'm', 'p', ';'] (c :: t) then
      '&' :: ampScanF fuel (t.drop 4)
    else c :: ampScanF fuel t

/-- Models `re.sub(r'&amp;', '&', ·)` -/
def ampScan (l : List Char) : List Char := ampScanF (l.length + 1) l

/-- Fuel-indexed worker for `re.sub(r'&nbsp;', ' ', ·)`. -/
def nbspScanF : Nat → List Char → List Char
  | 0, l => l
  | _ + 1, [] => []
  | fuel + 1, c :: t =>
    if List.isPrefixOf ['&', 'n', 'b', 's', 'p', ';'] (c :: t) then
      ' ' :: nbspScanF fuel (t.drop 5)
    else c :: nbspScanF fuel t

/-- Models `re.sub(r'&nbsp;', ' ', ·)` -/
def nbspScan (l : List Char) : List Char := nbspScanF (l.length + 1) l

/-- After `"&#"`: does `\d+;` match?  Returns the rest after `';'`. -/
def numEntTry (t : List Char) : Option (List Char) :=
  match t.drop ((t.takeWhile isDigitCh).length) with
  | ';' :: rest =>
    if (t.takeWhile isDigitCh).isEmpty then none else some rest
  | _ => none

/-- Fuel-indexed worker for `re.sub(r'&#\d+;', '', ·)`. -/
def numEntScanF : Nat → List Char → List Char
  | 0, l => l
  | _ + 1, [] => []
  | fuel + 1, c :: t =>
    if c = '&' ∧ t.head? = some '#' then
      match numEntTry t.tail with
      | some rest => numEntScanF fuel rest
      | none => '&' :: numEntScanF fuel t
    else c :: numEntScanF fuel t

/-- Models `re.sub(r'&#\d+;', '', ·)` -/
def numEntScan (l : List Char) : List Char := numEntScanF (l.length + 1) l

/-- After `"\x7b\x7b"`: does `[^\x7d]*\x7d\x7d` match?  Returns the
rest. -/
def tmplTry (t : List Char) : Option (List Char) :=
  match t.drop ((t.takeWhile (fun c => c ≠ '\x7d')).length) with
  | '\x7d' :: '\x7d' :: rest => some rest
  | _ => none

/-- Fuel-indexed worker for `re.sub(r'\{\{[^}]*\}\}', '', ·)` (wiki
template removal). -/
def tmplScanF : Nat → List Char → List Char
  | 0, l => l
  | _ + 1, [] => []
  | fuel + 1, c :: t =>
    if c = '\x7b' ∧ t.head? = some '\x7b' then
      match tmplTry t.tail with
      | some rest => tmplScanF fuel rest
      | none => '\x7b' :: tmplScanF fuel t
    else c :: tmplScanF fuel t

/-- Models `re.sub(r'\{\{[^}]*\}\}', '', ·)` -/
def tmplScan (l : List Char) : List Char := tmplScanF (l.length + 1) l

/-- After `"[["`: the branch of `([^\]|]*\|)?([^\]]*)\]\]` that takes
the optional bar group.  `[^\]|]*` cannot cross `']'` or `'|'`, so it is
the maximal such run, which must be followed by `'|'`; then `[^\]]*`
runs to the first `']'`, which must be followed by a second `']'`. -/
def linkTryBar (t : List Char) : Option (List Char × List Char) :=
  match t.drop ((t.takeWhile (fun c => c ≠ ']' && c ≠ '|')).length) with
  | '|' :: u =>
    match u.drop ((u.takeWhile (fun c => c ≠ ']')).length) with
    | ']' :: ']' :: rest => some (u.takeWhile (fun c => c ≠ ']'), rest)
    | _ => none
  | _ => none

/-- After `"[["`: the branch without the bar group: `([^\]]*)\]\]`. -/
def linkTryNoBar (t : List Char) : Option (List Char × List Char) :=
  match t.drop ((t.takeWhile (fun c => c ≠ ']')).length) with
  | ']' :: ']' :: rest => some (t.takeWhile (fun c => c ≠ ']'), rest)
  | _ => none

/-- After `"[["`: match `([^\]|]*\|)?([^\]]*)\]\]` with Python
priority (bar-group branch first).  Returns `(group 2, rest)`. -/
def linkTry (t : List Char) : Option (List Char × List Char) :=
  match linkTryBar t with
  | some x => some x
  | none => linkTryNoBar t

/-- Fuel-indexed worker for
`re.sub(r'\[\[([^\]|]*\|)?([^\]]*)\]\]', r'\2', ·)` (unwrap wiki
links). -/
def linkScanF : Nat → List Char → List Char
  | 0, l => l
  | _ + 1, [] => []
  | fuel + 1, c :: t =>
    if c = '[' ∧ t.head? = some '[' then
      match linkTry t.tail with
      | some (g, rest) => g ++ linkScanF fuel rest
      | none => '[' :: linkScanF fuel t
    else c :: linkScanF fuel t

/-- Models `re.sub(r'\[\[([^\]|]*\|)?([^\]]*)\]\]', r'\2', ·)` -/
def linkScan (l : List Char) : List Char := linkScanF (l.length + 1) l

/-- The whitespace-to-space map used modeling `re.sub(r'\s+', ' ', ·)`. -/
def wsMap (c : Char) : Char := if isSpaceCh c then ' ' else c

/-- Collapse runs of `' '` to a single `' '`.  Together with
`List.map wsMap` this is `re.sub(r'\s+', ' ', ·)`: every maximal
whitespace run becomes the single character `' '`. -/
def squeeze : List Char → List Char
  | [] => []
  | [c] => [c]
  | a :: b :: t =>
    if a = ' ' && b = ' ' then squeeze (b :: t) else a :: squeeze (b :: t)

/-- Models `clean` (list form): strip tags and entities, remove templates,
unwrap wiki links, collapse whitespace, trim. -/
def cleanL (l : List Char) : List Char :=
  pyStrip (squeeze ((linkScan (tmplScan (numEntScan (nbspScan
    (ampScan (tagScan l)))))).map wsMap))

/-- Models `clean(text)` from `scraper.py`. -/
def clean (s : String) : String := ⟨cleanL s.data⟩

/-! ## The source regular expressions -/

/-- ASCII apostrophe. -/
def aposCh : Char := Char.ofNat 39

/-- U+2019 right single quotation mark. -/
def rsquoCh : Char := Char.ofNat 8217

/-- Any character (`.` under `re.DOTALL`). -/
def anyCh : Char → Bool := fun _ => true

/-- Models the dot without `re.DOTALL`: anything but a newline. -/
def anyNoNl (c : Char) : Bool := c ≠ '\n'

/-- Exactly `n` digits (`\d{n}`). -/
def digitsN : Nat → RE
  | 0 => .eps
  | n + 1 => .seq (.cls isDigitCh) (digitsN n)

/-- Models `[×xX\-\s]` (RE-7's separator after a digit count). -/
def titlesSepCls (c : Char) : Bool :=
  c = '×' || c = 'x' || c = 'X' || c = '-' || isSpaceCh c

/-- Models `[\s\-]` -/
def spaceDashCls (c : Char) : Bool :=
  isSpaceCh c || c = '-'

/-- Models `one|two|…|ten` (candidates tried in this order). -/
def wordsAlt : RE :=
  .alt (.litci "one".data) (.alt (.litci "two".data) (.alt (.litci "three".data)
    (.alt (.litci "four".data) (.alt (.litci "five".data)
    (.alt (.litci "six".data) (.alt (.litci "seven".data)
    (.alt (.litci "eight".data) (.alt (.litci "nine".data)
    (.litci "ten".data)))))))))

/-- RE-7 `RE_TITLES` (with `re.IGNORECASE`):
`(?:(?P<num>\d+)[×xX\-\s]?|(?P<word>one|…|ten)[\s\-]?(?:time[\s\-])? )?`
`World\s+(?:Drivers['’]?\s+)?Champio`.
Group 1 is `num`, group 2 is `word`. -/
def reTitles : RE :=
  .seq
    (.opt (.alt
      (.seq (.grp 1 (.plusG isDigitCh)) (.opt (.cls titlesSepCls)))
      (.seq (.grp 2 wordsAlt)
        (.seq (.opt (.cls spaceDashCls))
          (.seq (.opt (.seq (.litci "time".data) (.cls spaceDashCls)))
            (.lit [' ']))))))
    (.seq (.litci "World".data)
      (.seq (.plusG isSpaceCh)
        (.seq (.opt (.seq (.litci "Drivers".data)
          (.seq (.opt (.cls (fun c => c = aposCh || c = rsquoCh)))
            (.plusG isSpaceCh))))
          (.litci "Champio".data))))

/-- RE-3 `RE_DOB`: `class="bday">(\d{4}-\d{2}-\d{2})<` (`re.IGNORECASE`). -/
def reDob : RE :=
  .seq (.litci "class=\"bday\">".data)
    (.seq (.grp 1 (.seq (digitsN 4) (.seq (.lit ['-'])
      (.seq (digitsN 2) (.seq (.lit ['-']) (digitsN 2))))))
      (.lit ['<']))

/-- Models `Jan|Feb|…|Dec` -/
def monthsAlt : RE :=
  .alt (.litci "Jan".data) (.alt (.litci "Feb".data) (.alt (.litci "Mar".data)
    (.alt (.litci "Apr".data) (.alt (.litci "May".data)
    (.alt (.litci "Jun".data) (.alt (.litci "Jul".data)
    (.alt (.litci "Aug".data) (.alt (.litci "Sep".data)
    (.alt (.litci "Oct".data) (.alt (.litci "Nov".data)
    (.litci "Dec".data)))))))))))

/-- Models `parse_dob`'s fallback pattern (with `re.IGNORECASE`):
`(\d{1,2}\s+(?:Jan|…|Dec)[a-z]*\s+\d{4})`. -/
def reDobFallback : RE :=
  .grp 1 (.seq (.cls isDigitCh) (.seq (.opt (.cls isDigitCh))
    (.seq (.plusG isSpaceCh) (.seq monthsAlt
      (.seq (.starG isAsciiLetter)
        (.seq (.plusG isSpaceCh) (digitsN 4)))))))

/-- RE-4 `RE_BIRTHPLACE`: `class="birthplace"[^>]*>(.*?)</div>`
(`re.IGNORECASE | re.DOTALL`). -/
def reBirthplace : RE :=
  .seq (.litci "class=\"birthplace\"".data)
    (.seq (.starG (fun c => c ≠ '>'))
      (.seq (.lit ['>'])
        (.seq (.grp 1 (.starL anyCh)) (.litci "</div>".data))))

/-- RE-5 `RE_NATIONALITY`: `Nationality.*?</td>`
(`re.IGNORECASE | re.DOTALL`). -/
def reNationality : RE :=
  .seq (.litci "Nationality".data)
    (.seq (.starL anyCh) (.litci "</td>".data))

/-- The anchor-text pattern `<a[^>]*>([^<]+)</a>` used by
`parse_nationality` and `parse_team` (no flags). -/
def reAnchor : RE :=
  .seq (.lit "<a".data)
    (.seq (.starG (fun c => c ≠ '>'))
      (.seq (.lit ['>'])
        (.seq (.grp 1 (.plusG (fun c => c ≠ '<'))) (.lit "</a>".data))))

/-- RE-6 `RE_F1_TEAM`:
`World Championship career.*?(?:team|Teams)</th><td[^>]*>(.*?)</td>`
(`re.IGNORECASE | re.DOTALL`). -/
def reF1Team : RE :=
  .seq (.litci "World Championship career".data)
    (.seq (.starL anyCh)
      (.seq (.alt (.litci "team".data) (.litci "Teams".data))
        (.seq (.litci "</th><td".data)
          (.seq (.starG (fun c => c ≠ '>'))
            (.seq (.lit ['>'])
              (.seq (.grp 1 (.starL anyCh)) (.litci "</td>".data)))))))

/-- RE-8/9/10/11 share this shape (with `re.IGNORECASE` but no
`re.DOTALL`, so `.` excludes newlines):
`World Championship career</th></tr>.*?LABEL.*?<td[^>]*>(\d+)</td>`. -/
def careerStat (label : String) : RE :=
  .seq (.litci "World Championship career</th></tr>".data)
    (.seq (.starL anyNoNl)
      (.seq (.litci label.data)
        (.seq (.starL anyNoNl)
          (.seq (.litci "<td".data)
            (.seq (.starG (fun c => c ≠ '>'))
              (.seq (.lit ['>'])
                (.seq (.grp 1 (.plusG isDigitCh))
                  (.litci "</td>".data))))))))

/-- RE-8 `RE_WINS`. -/
def reWins : RE := careerStat "Wins"

/-- RE-9 `RE_NUMBER`. -/
def reNumber : RE := careerStat "Car number"

/-- RE-10 `RE_PODIUMS`. -/
def rePodiums : RE := careerStat "Podiums"

/-- RE-11 `RE_POLES`. -/
def rePoles : RE := careerStat "Pole Positions"

/-- The infobox extractor in `parse_driver_page`:
`<table[^>]*class="[^"]*infobox[^"]*".*?</table>`
(`re.DOTALL | re.IGNORECASE`). -/
def reInfobox : RE :=
  .seq (.litci "<table".data)
    (.seq (.starG (fun c => c ≠ '>'))
      (.seq (.litci "class=\"".data)
        (.seq (.starG (fun c => c ≠ '\"'))
          (.seq (.litci "infobox".data)
            (.seq (.starG (fun c => c ≠ '\"'))
              (.seq (.lit ['\"'])
                (.seq (.starL anyCh) (.litci "</table>".data))))))))

/-- Models `[A-ZÀ-Ö]` (first character of RE-2's capture). -/
def titleUpperCls (c : Char) : Bool :=
  ('A' ≤ c && c ≤ 'Z') || ('À' ≤ c && c ≤ 'Ö')

/-- Models `[a-zA-ZÀ-ö'\-\. ]` (body characters of RE-2's capture). -/
def titleBodyCls (c : Char) : Bool :=
  ('a' ≤ c && c ≤ 'z') || ('A' ≤ c && c ≤ 'Z') || ('À' ≤ c && c ≤ 'ö') ||
    c = aposCh || c = '-' || c = '.' || c = ' '

/-- RE-2 `RE_PAGE_TITLE`: `<title>\s*([A-ZÀ-Ö][a-zA-ZÀ-ö'\-\. ]+?)\s*[-–|]`
(case-sensitive). -/
def rePageTitle : RE :=
  .seq (.lit "<title>".data)
    (.seq (.starG isSpaceCh)
      (.seq (.grp 1 (.seq (.cls titleUpperCls) (.plusL titleBodyCls)))
        (.seq (.starG isSpaceCh)
          (.cls (fun c => c = '-' || c = '–' || c = '|')))))

/-- The lowercase/accented name-token characters of RE-1:
`[a-záéíóúàèìòùäëïöüñ'\-]`. -/
def driverNameCls (c : Char) : Bool :=
  ('a' ≤ c && c ≤ 'z') || "áéíóúàèìòùäëïöüñ".data.contains c ||
    c = aposCh || c = '-'

/-- One `[A-Z][a-z…]+` name token of RE-1. -/
def nameUnit : RE :=
  .seq (.cls (fun c => 'A' ≤ c && c ≤ 'Z')) (.plusG driverNameCls)

/-- Models an underscore followed by a name token. -/
def underUnit : RE := .seq (.lit ['_']) nameUnit

/-- RE-1 `RE_DRIVER_LINK`:
`href="(/wiki/([A-Z][…]+(?:_[A-Z][…]+){1,3}))"`; the `{1,3}` is unrolled
greedily (three repeats preferred). Group 1 is the wiki path. -/
def reDriverLink : RE :=
  .seq (.lit "href=\"".data)
    (.seq (.grp 1 (.seq (.lit "/wiki/".data)
      (.grp 2 (.seq nameUnit
        (.seq underUnit (.opt (.seq underUnit (.opt underUnit))))))))
      (.lit ['\"']))

/-- Models `app.py`'s `RE_NAT_CLEAN`: `\(.*?\)` (no flags, `.` excludes
newlines). -/
def reParen : RE :=
  .seq (.lit ['(']) (.seq (.starL anyNoNl) (.lit [')']))

/-! ## Field extractors (`parse_*` in `scraper.py`) -/

/-- Look up a capture group; unset groups behave like Python's `None`
(empty, hence falsy). -/
def capGet (caps : Caps) (n : Nat) : List Char :=
  (caps.lookup n).getD []

/-- First `(?:19|20)\d{2}` match in a string, as its numeric value.
This is `re.search(r'(?:19|20)\d{2}', ·)` (used by `parse_age` and by
`app.py`'s `RE_YEAR_ONLY`): the alternatives `19`/`20` and the two
trailing digits make the match at each position deterministic, so the
leftmost position with a match wins. -/
def yearAt : List Char → Option Nat
  | c1 :: c2 :: c3 :: c4 :: _ =>
    if ((c1 = '1' && c2 = '9') || (c1 = '2' && c2 = '0')) &&
        isDigitCh c3 && isDigitCh c4 then
      some (1000 * (c1.toNat - 48) + 100 * (c2.toNat - 48) +
        10 * (c3.toNat - 48) + (c4.toNat - 48))
    else none
  | _ => none

/-- Leftmost year match (see `yearAt`). -/
def yearScan : List Char → Option Nat
  | [] => none
  | c :: t =>
    match yearAt (c :: t) with
    | some y => some y
    | none => yearScan t

/-- Models `parse_age(dob)`.  The source reads `date.today().year`; the ambient
clock is made explicit as `todayYear`. -/
def parse_age (todayYear : Int) (dob : String) : String :=
  match yearScan dob.data with
  | some y => pyStrInt (todayYear - (y : Int))
  | none => "N/A"

/-- Models `parse_dob(text)`: the `bday` marker, else the `Day Month Year`
fallback, else `"N/A"`. -/
def parse_dob (text : String) : String :=
  match reSearch reDob text.data with
  | some (_, _, caps) => ⟨pyStrip (capGet caps 1)⟩
  | none =>
    match reSearch reDobFallback text.data with
    | some (_, _, caps) => ⟨capGet caps 1⟩
    | none => "N/A"

/-- Models `parse_birthplace(text)`. -/
def parse_birthplace (text : String) : String :=
  match reSearch reBirthplace text.data with
  | some (_, _, caps) => clean ⟨capGet caps 1⟩
  | none => "N/A"

/-- The anchor texts (`re.findall(r'<a[^>]*>([^<]+)</a>', cell)`). -/
def anchorTexts (cell : List Char) : List (List Char) :=
  (findAll reAnchor cell).map (fun m => capGet m.2 1)

/-- Models `parse_nationality(text)`: the `Nationality…</td>` cell, then the
last anchor text inside it, stripped. -/
def parse_nationality (text : String) : String :=
  match reSearch reNationality text.data with
  | none => "N/A"
  | some (cell, _, _) =>
    match (anchorTexts cell).getLast? with
    | some l => ⟨pyStrip l⟩
    | none => "N/A"

/-- Models `parse_team(text)`: the career-team cell's content (group 1), then
the last anchor text inside it, stripped. -/
def parse_team (text : String) : String :=
  match reSearch reF1Team text.data with
  | none => "N/A"
  | some (_, _, caps) =>
    match (anchorTexts (capGet caps 1)).getLast? with
    | some l => ⟨pyStrip l⟩
    | none => "N/A"

/-- Models `word_map.get(word.lower(), 1)` from `parse_titles`. -/
def wordVal (w : List Char) : Nat :=
  let lw := w.map Char.toLower
  if lw = "one".data then 1 else if lw = "two".data then 2
  else if lw = "three".data then 3 else if lw = "four".data then 4
  else if lw = "five".data then 5 else if lw = "six".data then 6
  else if lw = "seven".data then 7 else if lw = "eight".data then 8
  else if lw = "nine".data then 9 else if lw = "ten".data then 10
  else 1

/-- Models `parse_titles(text)`: `"0"` with no match; the digit count if group
`num` matched; the word count if group `word` matched; else `"1"`. -/
def parse_titles (text : String) : String :=
  match reSearch reTitles text.data with
  | none => "0"
  | some (_, _, caps) =>
    if capGet caps 1 ≠ [] then ⟨capGet caps 1⟩
    else if capGet caps 2 ≠ [] then pyStrNat (wordVal (capGet caps 2))
    else "1"

/-- Models `parse_wins(text)`. -/
def parse_wins (text : String) : String :=
  match reSearch reWins text.data with
  | some (_, _, caps) => ⟨capGet caps 1⟩
  | none => "N/A"

/-- Models `parse_number(text)`. -/
def parse_number (text : String) : String :=
  match reSearch reNumber text.data with
  | some (_, _, caps) => ⟨capGet caps 1⟩
  | none => "N/A"

/-- Models `parse_podiums(infobox)`. -/
def parse_podiums (text : String) : String :=
  match reSearch rePodiums text.data with
  | some (_, _, caps) => ⟨capGet caps 1⟩
  | none => "N/A"

/-- Models `parse_poles(infobox)`. -/
def parse_poles (text : String) : String :=
  match reSearch rePoles text.data with
  | some (_, _, caps) => ⟨capGet caps 1⟩
  | none => "N/A"

/-! ## The fetcher

`fetch` wraps `urllib.request.urlopen` + decode in `try/except
Exception`.  The attempt's outcome (ambient network state) is explicit:
either a decoded body, or an error.  Decoding itself cannot fail
(`errors="replace"`). -/

/-- Outcome of one `urlopen` + decode attempt. -/
inductive FetchOutcome where
  | ok (body : String) : FetchOutcome
  | err (e : String) : FetchOutcome
deriving DecidableEq

/-- The warning `print(f"  [WARN] {url}: {e}")` emits. -/
def warnLine (url e : String) : String :=
  "  [WARN] " ++ url ++ ": " ++ e

/-- Models `fetch(url)`: result body (`""` on failure) together with the log
lines produced.  The `except Exception` arm returns `""` after logging;
nothing escapes to the caller. -/
def fetch (url : String) (outcome : FetchOutcome) : String × List String :=
  match outcome with
  | .ok body => (body, [])
  | .err e => ("", [warnLine url e])

/-! ## Scraping a single driver page (`parse_driver_page`) -/

/-- One extracted driver record; the `dict` literal returned by
`parse_driver_page` always carries exactly these fourteen string
fields. -/
structure DriverRecord where
  name : String
  first_name : String
  last_name : String
  dob : String
  age : String
  birthplace : String
  nationality : String
  team : String
  titles : String
  wins : String
  podiums : String
  poles : String
  number : String
  wiki_url : String
deriving DecidableEq, Repr

/-- The record's fields as serialized, in source order. -/
def recordFields (d : DriverRecord) : List (String × String) :=
  [("name", d.name), ("first_name", d.first_name),
   ("last_name", d.last_name), ("dob", d.dob), ("age", d.age),
   ("birthplace", d.birthplace), ("nationality", d.nationality),
   ("team", d.team), ("titles", d.titles), ("wins", d.wins),
   ("podiums", d.podiums), ("poles", d.poles), ("number", d.number),
   ("wiki_url", d.wiki_url)]

/-- The schema's field names. -/
def schemaKeys : List String :=
  ["name", "first_name", "last_name", "dob", "age", "birthplace",
   "nationality", "team", "titles", "wins", "podiums", "poles",
   "number", "wiki_url"]

/-- The suffix after the last occurrence of `m` (if any):
`s.split(m)[-1]` returns this when `m` occurs, else `s` itself. -/
def afterLastOcc (m : List Char) : List Char → Option (List Char)
  | [] => none
  | c :: t =>
    match afterLastOcc m t with
    | some r => some r
    | none =>
      if m.isPrefixOf (c :: t) then some ((c :: t).drop m.length)
      else none

/-- Models `url.split("/wiki/")[-1].replace("_", " ")`. -/
def urlTailName (url : String) : String :=
  ⟨((afterLastOcc "/wiki/".data url.data).getD url.data).map
    (fun c => if c = '_' then ' ' else c)⟩

/-- Models `parse_driver_page(url)`.  The network is the explicit `fetchFn`
(what `fetch` returns for each URL) and the clock year is `todayYear`.
Returns `none` for the `{}` early exit on empty content. -/
def parse_driver_page (fetchFn : String → String) (todayYear : Int)
    (url : String) : Option DriverRecord :=
  let html := fetchFn url
  if html = "" then none
  else
    let infobox_html : String :=
      match reSearch reInfobox html.data with
      | some (m, _, _) => ⟨m⟩
      | none => ⟨html.data.take 8000⟩
    let page_text := clean ⟨html.data.take 12000⟩
    let full_name : String :=
      match reSearch rePageTitle html.data with
      | some (_, _, caps) => ⟨pyStrip (capGet caps 1)⟩
      | none => urlTailName url
    let parts := pySplitWs full_name.data
    let firstName : String :=
      match parts with
      | [] => full_name
      | p :: _ => ⟨p⟩
    let lastName : String :=
      if parts.length > 1 then ⟨List.intercalate [' '] parts.tail⟩ else ""
    let dobv := parse_dob infobox_html
    some
      { name := full_name
        first_name := firstName
        last_name := lastName
        dob := dobv
        age := parse_age todayYear dobv
        birthplace := parse_birthplace infobox_html
        nationality := parse_nationality infobox_html
        team := parse_team infobox_html
        titles := parse_titles page_text
        wins := parse_wins infobox_html
        podiums := parse_podiums infobox_html
        poles := parse_poles infobox_html
        number := parse_number infobox_html
        wiki_url := url }

/-! ## The link collector -/

/-- The aggregator pages (`LIST_PAGES`). -/
def LIST_PAGES : List String :=
  ["https://en.wikipedia.org/wiki/List_of_Formula_One_drivers",
   "https://en.wikipedia.org/wiki/Formula_One_drivers_who_have_competed_in_100_or_more_Grands_Prix",
   "https://en.wikipedia.org/wiki/List_of_Formula_One_World_Drivers%27_Champions"]

/-- The alternatives of the `SKIP` exclusion pattern. -/
def skipWords : List String :=
  ["Wikipedia", "Category", "File", "Template", "Help", "Special",
   "Portal", "Talk", "User", "Main_Page", "List_of", "History_of",
   "Season", "Grand_Prix_of", "Championship", "Circuit", "Constructors",
   "Team_", "engine", "Liberty", "Formula_One", "East", "West", "North",
   "South"]

/-- Case-insensitive substring occurrence. -/
def ciSubstr (needle : List Char) : List Char → Bool
  | [] => ciPrefixOf needle []
  | c :: t => ciPrefixOf needle (c :: t) || ciSubstr needle t

/-- Models whether `SKIP.search(path)` is truthy: the pattern is an alternation of
literals under `re.IGNORECASE`, so a match exists exactly when some
alternative occurs case-insensitively. -/
def skipHit (path : String) : Bool :=
  skipWords.any (fun w => ciSubstr w.data path.data)

/-- Models `"https://en.wikipedia.org" + path`. -/
def urlOfPath (path : String) : String :=
  "https://en.wikipedia.org" ++ path

/-- The candidate wiki paths scanned from one aggregator page:
`[m.group(1) for m in RE_DRIVER_LINK.finditer(html)]`. -/
def pathsOf (html : String) : List String :=
  (findAll reDriverLink html.data).map (fun m => ⟨capGet m.2 1⟩)

/-- The inner `for m in RE_DRIVER_LINK.finditer(html)` loop of
`collect_driver_links`: skip excluded paths, deduplicate against `seen`,
and break once `target` links are collected.  The Python `seen` set is a
list queried with membership. -/
def scanMatches (target : Nat) :
    List String → List String × List String → List String × List String
  | [], st => st
  | p :: ps, (seen, links) =>
    if skipHit p then scanMatches target ps (seen, links)
    else
      let url := urlOfPath p
      let st' :=
        if url ∈ seen then (seen, links)
        else (seen ++ [url], links ++ [url])
      if st'.2.length ≥ target then st'
      else scanMatches target ps st'

/-- The outer `for lp in LIST_PAGES` loop. -/
def collectFrom (fetchFn : String → String) (target : Nat) :
    List String → List String × List String → List String
  | [], st => st.2
  | lp :: lps, (seen, links) =>
    if links.length ≥ target then links
    else
      collectFrom fetchFn target lps
        (scanMatches target (pathsOf (fetchFn lp)) (seen, links))

/-- Models `collect_driver_links(target)` (the final `links[:target]`). -/
def collect_driver_links (fetchFn : String → String) (target : Nat) :
    List String :=
  (collectFrom fetchFn target LIST_PAGES ([], [])).take target

/-! ## The crawl orchestrator (`run_crawler`) -/

/-- The retention test `if d and d.get("name") and len(d["name"]) > 3`. -/
def keepRecord (d : DriverRecord) : Prop :=
  d.name ≠ "" ∧ d.name.length > 3

instance (d : DriverRecord) : Decidable (keepRecord d) := by
  unfold keepRecord
  infer_instance

/-- The in-memory record sequence `drivers` accumulated by
`run_crawler`'s per-URL loop. -/
def crawlRecords (fetchFn : String → String) (todayYear : Int)
    (target : Nat) : List DriverRecord :=
  (collect_driver_links fetchFn target).filterMap (fun url =>
    match parse_driver_page fetchFn todayYear url with
    | some d => if keepRecord d then some d else none
    | none => none)

/-- JSON string escaping as `json.dump` does with `ensure_ascii=False`:
escape the quote, the backslash and control characters. -/
def jsonEscapeChar (c : Char) : List Char :=
  if c = '\"' then ['\\', '\"']
  else if c = '\\' then ['\\', '\\']
  else if c = '\n' then ['\\', 'n']
  else if c = '\t' then ['\\', 't']
  else if c = '\r' then ['\\', 'r']
  else if c = '\x08' then ['\\', 'b']
  else if c = '\x0c' then ['\\', 'f']
  else if c.toNat < 32 then
    ['\\', 'u', '0', '0', digitChar (c.toNat / 16), digitChar (c.toNat % 16)]
  else [c]

/-- Escape a whole string. -/
def jsonEscape (s : String) : String :=
  ⟨(s.data.map jsonEscapeChar).flatten⟩

/-- One `"key": "value"` line at `indent=2`'s inner level. -/
def jsonField (kv : String × String) : String :=
  "    \"" ++ kv.1 ++ "\": \"" ++ jsonEscape kv.2 ++ "\""

/-- One record object as `json.dump(…, indent=2)` lays it out. -/
def jsonRecordStr (d : DriverRecord) : String :=
  "  \x7b\n" ++
    String.intercalate ",\n" ((recordFields d).map jsonField) ++
    "\n  \x7d"

/-- Models `json.dump(drivers, f, ensure_ascii=False, indent=2)`'s output. -/
def jsonDump (ds : List DriverRecord) : String :=
  match ds with
  | [] => "[]"
  | _ =>
    "[\n" ++ String.intercalate ",\n" (ds.map jsonRecordStr) ++ "\n]"

/-- The content of the output file after each step of
`run_crawler(target, out)`, starting from previous content `old`:
the `os.makedirs`/`collect_driver_links` step and each iteration of the
per-URL loop never touch the file (they only print and sleep), then
`open(out, "w")` truncates it, then `json.dump` writes the serialized
collection.  (The dump itself streams, so the truncated state stands for
every partially-written intermediate as well.) -/
def crawlFileStates (fetchFn : String → String) (todayYear : Int)
    (target : Nat) (old : String) : List String :=
  let urls := collect_driver_links fetchFn target
  List.replicate (2 + urls.length) old ++
    ["", jsonDump (crawlRecords fetchFn todayYear target)]

/-! ## The app layer (`app.py`'s `enrich`) -/

/-- Models `enrich`'s age computation:
`driver.setdefault("age", str(2025 - int(y.group())) if y else "N/A")`
with `y = RE_YEAR_ONLY.search(driver.get("dob", ""))`.  The `2025` is a
literal constant in the source. -/
def enrichAge (ageField : Option String) (dobField : Option String) :
    String :=
  match ageField with
  | some a => a
  | none =>
    match yearScan (dobField.getD "").data with
    | some y => pyStrInt (2025 - (y : Int))
    | none => "N/A"

/-- Models `enrich`'s nationality rewrite:
`nat = RE_NAT_CLEAN.sub("", driver.get("nationality", "N/A")).strip()`
then `driver["nationality"] = nat if nat else "N/A"`. -/
def enrichNat (natField : Option String) : String :=
  let cleaned :=
    pyStrip (reSubAll reParen (fun _ => []) (natField.getD "N/A").data)
  if cleaned.isEmpty then "N/A" else ⟨cleaned⟩

/-! ## Lemmas about decimal strings -/

theorem natDigitsAux_eq {fuel n : Nat} (h : n ≤ fuel) :
    natDigitsAux fuel n = Nat.digits 10 n := by
  induction fuel generalizing n with
  | zero =>
    have hn : n = 0 := by omega
    subst hn
    simp [natDigitsAux]
  | succ fuel ih =>
    by_cases hn : n = 0
    · subst hn
      simp [natDigitsAux]
    · rw [show natDigitsAux (fuel + 1) n = n % 10 :: natDigitsAux fuel (n / 10)
        by simp [natDigitsAux, hn]]
      rw [ih (by
        have := Nat.div_lt_self (Nat.pos_of_ne_zero hn)
          (by norm_num : 1 < 10)
        omega)]
      exact (Nat.digits_def' (by norm_num : 1 < 10)
        (Nat.pos_of_ne_zero hn)).symm

theorem natDigits_eq (n : Nat) : natDigits n = Nat.digits 10 n :=
  natDigitsAux_eq (le_refl n)

theorem digitChar_isDigit {d : Nat} (h : d < 10) :
    isDigitCh (digitChar d) = true := by
  interval_cases d <;> decide

theorem digitChar_injOn {a b : Nat} (ha : a < 10) (hb : b < 10)
    (h : digitChar a = digitChar b) : a = b := by
  interval_cases a <;> interval_cases b <;> revert h <;> decide

theorem pyStrNat_chars {n : Nat} {c : Char} (hc : c ∈ (pyStrNat n).data) :
    isDigitCh c = true := by
  unfold pyStrNat at hc
  by_cases h : n = 0
  · simp [h] at hc
    subst hc
    decide
  · simp only [h, ite_false] at hc
    change c ∈ ((natDigits n).map digitChar).reverse at hc
    rw [natDigits_eq, List.mem_reverse, List.mem_map] at hc
    obtain ⟨d, hd, rfl⟩ := hc
    exact digitChar_isDigit (Nat.digits_lt_base (by norm_num) hd)

theorem pyStrNat_ne_empty (n : Nat) : (pyStrNat n).data ≠ [] := by
  unfold pyStrNat
  by_cases h : n = 0
  · simp [h]
  · simp only [h, ite_false]
    change ((natDigits n).map digitChar).reverse ≠ []
    rw [natDigits_eq]
    simp [Nat.digits_ne_nil_iff_ne_zero.mpr h]

theorem pyStrInt_chars {i : Int} {c : Char} (hc : c ∈ (pyStrInt i).data) :
    isDigitCh c = true ∨ c = '-' := by
  unfold pyStrInt at hc
  by_cases h : i < 0
  · simp only [h, ite_true] at hc
    rw [show ("-" ++ pyStrNat i.natAbs).data =
        '-' :: (pyStrNat i.natAbs).data from rfl] at hc
    rcases List.mem_cons.mp hc with h1 | h1
    · exact Or.inr h1
    · exact Or.inl (pyStrNat_chars h1)
  · simp only [h, ite_false] at hc
    exact Or.inl (pyStrNat_chars hc)

theorem pyStrInt_ne_NA (i : Int) : pyStrInt i ≠ "N/A" := by
  intro h
  have hN : 'N' ∈ (pyStrInt i).data := by
    rw [h]
    decide
  rcases pyStrInt_chars hN with h1 | h1 <;> revert h1 <;> decide

theorem map_digitChar_injOn {l1 l2 : List Nat}
    (h1 : ∀ d ∈ l1, d < 10) (h2 : ∀ d ∈ l2, d < 10)
    (h : l1.map digitChar = l2.map digitChar) : l1 = l2 := by
  induction l1 generalizing l2 with
  | nil => cases l2 <;> simp_all
  | cons a t ih =>
    cases l2 with
    | nil => simp_all
    | cons b t2 =>
      simp only [List.map_cons, List.cons.injEq] at h
      have hab := digitChar_injOn (h1 a (by simp)) (h2 b (by simp)) h.1
      subst hab
      rw [ih (fun d hd => h1 d (List.mem_cons_of_mem _ hd))
        (fun d hd => h2 d (List.mem_cons_of_mem _ hd)) h.2]

theorem pyStrNat_inj {a b : Nat} (h : pyStrNat a = pyStrNat b) : a = b := by
  have digitsOf : ∀ n : Nat, n ≠ 0 →
      (pyStrNat n).data = ((Nat.digits 10 n).map digitChar).reverse := by
    intro n hn
    unfold pyStrNat
    simp [hn, natDigits_eq]
  have zeroChar : (pyStrNat 0).data = ['0'] := by decide
  have zeroOf : ∀ n : Nat, n ≠ 0 → (pyStrNat n).data = ['0'] → False := by
    intro n hn h0
    have hm : (Nat.digits 10 n).map digitChar = ['0'] := by
      have hrev := (digitsOf n hn).symm.trans h0
      have := congrArg List.reverse hrev
      simpa using this
    have hdig : Nat.digits 10 n = [0] := by
      apply map_digitChar_injOn
        (fun d hd => Nat.digits_lt_base (by norm_num) hd)
        (by intro d hd; simp at hd; omega)
      rw [hm]
      decide
    have hofd := Nat.ofDigits_digits 10 n
    rw [hdig] at hofd
    simp [Nat.ofDigits] at hofd
    exact hn hofd.symm
  by_cases ha : a = 0 <;> by_cases hb : b = 0
  · omega
  · exfalso
    apply zeroOf b hb
    rw [← h, ha, zeroChar]
  · exfalso
    apply zeroOf a ha
    rw [h, hb, zeroChar]
  · have hdata := congrArg String.data h
    rw [digitsOf a ha, digitsOf b hb] at hdata
    have hm : (Nat.digits 10 a).map digitChar = (Nat.digits 10 b).map digitChar :=
      List.reverse_injective hdata
    have hdig := map_digitChar_injOn
      (fun d hd => Nat.digits_lt_base (by norm_num) hd)
      (fun d hd => Nat.digits_lt_base (by norm_num) hd) hm
    calc a = Nat.ofDigits 10 (Nat.digits 10 a) := (Nat.ofDigits_digits 10 a).symm
    _ = Nat.ofDigits 10 (Nat.digits 10 b) := by rw [hdig]
    _ = b := Nat.ofDigits_digits 10 b

theorem pyStrInt_inj {a b : Int} (h : pyStrInt a = pyStrInt b) : a = b := by
  have mixed : ∀ x y : Int, x < 0 → ¬y < 0 → pyStrInt x ≠ pyStrInt y := by
    intro x y hx hy hxy
    unfold pyStrInt at hxy
    simp only [hx, hy, ite_true, ite_false] at hxy
    have hdash : '-' ∈ (pyStrNat y.toNat).data := by
      rw [← hxy]
      exact List.mem_cons_self _ _
    have := pyStrNat_chars hdash
    revert this
    decide
  by_cases ha : a < 0 <;> by_cases hb : b < 0
  · unfold pyStrInt at h
    simp only [ha, hb, ite_true] at h
    have hdata := congrArg String.data h
    rw [show ("-" ++ pyStrNat a.natAbs).data =
        '-' :: (pyStrNat a.natAbs).data from rfl,
       show ("-" ++ pyStrNat b.natAbs).data =
        '-' :: (pyStrNat b.natAbs).data from rfl] at hdata
    have := pyStrNat_inj (String.ext (List.cons_injective hdata))
    omega
  · exact absurd h (mixed a b ha hb)
  · exact absurd h.symm (mixed b a hb ha)
  · unfold pyStrInt at h
    simp only [ha, hb, ite_false] at h
    have := pyStrNat_inj h
    omega

/-! ## Characterizing `yearScan` (the `(?:19|20)\d{2}` search) -/

/-- A four-character year of the shape `19dd` or `20dd`. -/
def yearShape (m : List Char) : Prop :=
  ∃ c1 c2 c3 c4, m = [c1, c2, c3, c4] ∧
    ((c1 = '1' ∧ c2 = '9') ∨ (c1 = '2' ∧ c2 = '0')) ∧
    isDigitCh c3 = true ∧ isDigitCh c4 = true

/-- The decimal value of a digit string. -/
def yearVal (m : List Char) : Nat :=
  m.foldl (fun a c => 10 * a + (c.toNat - 48)) 0

theorem yearVal_four (c1 c2 c3 c4 : Char) :
    yearVal [c1, c2, c3, c4] = 1000 * (c1.toNat - 48) + 100 * (c2.toNat - 48) +
      10 * (c3.toNat - 48) + (c4.toNat - 48) := by
  unfold yearVal
  simp [List.foldl]
  ring

theorem yearAt_of_shape {mid suf : List Char} (h : yearShape mid) :
    yearAt (mid ++ suf) = some (yearVal mid) := by
  obtain ⟨c1, c2, c3, c4, rfl, h12, h3, h4⟩ := h
  show yearAt (c1 :: c2 :: c3 :: c4 :: suf) = _
  rw [yearVal_four]
  rcases h12 with ⟨rfl, rfl⟩ | ⟨rfl, rfl⟩ <;> simp [yearAt, h3, h4]

theorem yearAt_some_shape {l : List Char} {y : Nat}
    (h : yearAt l = some y) :
    ∃ mid suf, l = mid ++ suf ∧ yearShape mid ∧ yearVal mid = y := by
  rcases l with _ | ⟨c1, _ | ⟨c2, _ | ⟨c3, _ | ⟨c4, rest⟩⟩⟩⟩
  · exact absurd h (by simp [yearAt])
  · exact absurd h (by simp [yearAt])
  · exact absurd h (by simp [yearAt])
  · exact absurd h (by simp [yearAt])
  · rw [show yearAt (c1 :: c2 :: c3 :: c4 :: rest) =
        if ((c1 = '1' && c2 = '9') || (c1 = '2' && c2 = '0')) &&
            isDigitCh c3 && isDigitCh c4 then
          some (1000 * (c1.toNat - 48) + 100 * (c2.toNat - 48) +
            10 * (c3.toNat - 48) + (c4.toNat - 48))
        else none from rfl] at h
    split at h
    next hcond =>
      cases h
      refine ⟨[c1, c2, c3, c4], rest, rfl, ⟨c1, c2, c3, c4, rfl, ?_, ?_, ?_⟩,
        (yearVal_four c1 c2 c3 c4)⟩
      · simp only [Bool.and_eq_true, Bool.or_eq_true, decide_eq_true_eq] at hcond
        exact hcond.1.1
      · simp only [Bool.and_eq_true] at hcond
        exact hcond.1.2
      · simp only [Bool.and_eq_true] at hcond
        exact hcond.2
    next => exact absurd h (by simp)

theorem yearScan_none_iff {l : List Char} :
    yearScan l = none ↔ ∀ i, yearAt (l.drop i) = none := by
  induction l with
  | nil =>
    constructor
    · intro _ i
      simp [yearAt]
    · intro _
      rfl
  | cons c t ih =>
    constructor
    · intro h i
      unfold yearScan at h
      rcases hy : yearAt (c :: t) with _ | y
      · rw [hy] at h
        cases i with
        | zero => exact hy
        | succ j => exact ih.mp h j
      · rw [hy] at h
        exact absurd h (by simp)
    · intro h
      unfold yearScan
      have h0 := h 0
      simp only [List.drop_zero] at h0
      rw [h0]
      exact ih.mpr (fun i => h (i + 1))

theorem yearScan_some_iff {l : List Char} {y : Nat} :
    yearScan l = some y ↔
      ∃ i, (∀ j < i, yearAt (l.drop j) = none) ∧ yearAt (l.drop i) = some y := by
  induction l with
  | nil =>
    constructor
    · intro h
      exact absurd h (by simp [yearScan])
    · rintro ⟨i, _, hsome⟩
      rw [List.drop_nil] at hsome
      exact absurd hsome (by simp [yearAt])
  | cons c t ih =>
    constructor
    · intro h
      unfold yearScan at h
      rcases hy : yearAt (c :: t) with _ | y'
      · rw [hy] at h
        obtain ⟨i, hnone, hsome⟩ := ih.mp h
        exact ⟨i + 1, fun j hj => by
          cases j with
          | zero => exact hy
          | succ j2 => exact hnone j2 (by omega), hsome⟩
      · rw [hy] at h
        cases h
        exact ⟨0, by omega, hy⟩
    · rintro ⟨i, hnone, hsome⟩
      unfold yearScan
      cases i with
      | zero =>
        simp only [List.drop_zero] at hsome
        rw [hsome]
      | succ i2 =>
        have h0 := hnone 0 (by omega)
        simp only [List.drop_zero] at h0
        rw [h0]
        exact ih.mpr ⟨i2, fun j hj => hnone (j + 1) (by omega), hsome⟩

/-! ## Lemmas about `clean`

The six substitution passes are the identity on strings lacking their
trigger characters, and the whitespace-collapsing tail is idempotent. -/

theorem tagScanF_id {fuel : Nat} {l : List Char} (h : '<' ∉ l) :
    tagScanF fuel l = l := by
  induction fuel generalizing l with
  | zero => rfl
  | succ fuel ih =>
    cases l with
    | nil => rfl
    | cons c t =>
      have hc : ¬c = '<' := fun hc => h (hc ▸ List.mem_cons_self c t)
      show (if c = '<' then _ else c :: tagScanF fuel t) = c :: t
      rw [if_neg hc, ih (fun hm => h (List.mem_cons_of_mem _ hm))]

theorem tagScan_id {l : List Char} (h : '<' ∉ l) : tagScan l = l :=
  tagScanF_id h

theorem ampScanF_id {fuel : Nat} {l : List Char} (h : '&' ∉ l) :
    ampScanF fuel l = l := by
  induction fuel generalizing l with
  | zero => rfl
  | succ fuel ih =>
    cases l with
    | nil => rfl
    | cons c t =>
      have hc : ¬c = '&' := fun hc => h (hc ▸ List.mem_cons_self c t)
      have hpre : ¬(List.isPrefixOf ['&', 'a', 'm', 'p', ';'] (c :: t) = true) := by
        simp only [List.isPrefixOf, Bool.and_eq_true, beq_iff_eq]
        rintro ⟨h1, -⟩
        exact hc h1.symm
      show (if List.isPrefixOf ['&', 'a', 'm', 'p', ';'] (c :: t) then _
        else c :: ampScanF fuel t) = c :: t
      rw [if_neg hpre, ih (fun hm => h (List.mem_cons_of_mem _ hm))]

theorem ampScan_id {l : List Char} (h : '&' ∉ l) : ampScan l = l :=
  ampScanF_id h

theorem nbspScanF_id {fuel : Nat} {l : List Char} (h : '&' ∉ l) :
    nbspScanF fuel l = l := by
  induction fuel generalizing l with
  | zero => rfl
  | succ fuel ih =>
    cases l with
    | nil => rfl
    | cons c t =>
      have hc : ¬c = '&' := fun hc => h (hc ▸ List.mem_cons_self c t)
      have hpre : ¬(List.isPrefixOf ['&', 'n', 'b', 's', 'p', ';'] (c :: t) = true) := by
        simp only [List.isPrefixOf, Bool.and_eq_true, beq_iff_eq]
        rintro ⟨h1, -⟩
        exact hc h1.symm
      show (if List.isPrefixOf ['&', 'n', 'b', 's', 'p', ';'] (c :: t) then _
        else c :: nbspScanF fuel t) = c :: t
      rw [if_neg hpre, ih (fun hm => h (List.mem_cons_of_mem _ hm))]

theorem nbspScan_id {l : List Char} (h : '&' ∉ l) : nbspScan l = l :=
  nbspScanF_id h

theorem numEntScanF_id {fuel : Nat} {l : List Char} (h : '&' ∉ l) :
    numEntScanF fuel l = l := by
  induction fuel generalizing l with
  | zero => rfl
  | succ fuel ih =>
    cases l with
    | nil => rfl
    | cons c t =>
      have hc : ¬(c = '&' ∧ t.head? = some '#') :=
        fun hc => h (hc.1 ▸ List.mem_cons_self c t)
      show (if c = '&' ∧ t.head? = some '#' then _
        else c :: numEntScanF fuel t) = c :: t
      rw [if_neg hc, ih (fun hm => h (List.mem_cons_of_mem _ hm))]

theorem numEntScan_id {l : List Char} (h : '&' ∉ l) : numEntScan l = l :=
  numEntScanF_id h

theorem tmplScanF_id {fuel : Nat} {l : List Char} (h : '\x7b' ∉ l) :
    tmplScanF fuel l = l := by
  induction fuel generalizing l with
  | zero => rfl
  | succ fuel ih =>
    cases l with
    | nil => rfl
    | cons c t =>
      have hc : ¬(c = '\x7b' ∧ t.head? = some '\x7b') :=
        fun hc => h (hc.1 ▸ List.mem_cons_self c t)
      show (if c = '\x7b' ∧ t.head? = some '\x7b' then _
        else c :: tmplScanF fuel t) = c :: t
      rw [if_neg hc, ih (fun hm => h (List.mem_cons_of_mem _ hm))]

theorem tmplScan_id {l : List Char} (h : '\x7b' ∉ l) : tmplScan l = l :=
  tmplScanF_id h

theorem linkScanF_id {fuel : Nat} {l : List Char} (h : '[' ∉ l) :
    linkScanF fuel l = l := by
  induction fuel generalizing l with
  | zero => rfl
  | succ fuel ih =>
    cases l with
    | nil => rfl
    | cons c t =>
      have hc : ¬(c = '[' ∧ t.head? = some '[') :=
        fun hc => h (hc.1 ▸ List.mem_cons_self c t)
      show (if c = '[' ∧ t.head? = some '[' then _
        else c :: linkScanF fuel t) = c :: t
      rw [if_neg hc, ih (fun hm => h (List.mem_cons_of_mem _ hm))]

theorem linkScan_id {l : List Char} (h : '[' ∉ l) : linkScan l = l :=
  linkScanF_id h

/-- The map `wsMap` is idempotent on characters. -/
theorem wsMap_idem (c : Char) : wsMap (wsMap c) = wsMap c := by
  unfold wsMap
  by_cases h : isSpaceCh c = true <;> simp [h]

theorem map_fix {f : Char → Char} {l : List Char}
    (h : ∀ a ∈ l, f a = a) : l.map f = l := by
  induction l with
  | nil => rfl
  | cons c t ih =>
    simp only [List.map_cons, h c (List.mem_cons_self c t),
      ih (fun a ha => h a (List.mem_cons_of_mem _ ha))]

theorem mem_squeeze {c : Char} {l : List Char} (h : c ∈ squeeze l) :
    c ∈ l := by
  induction l with
  | nil => simpa [squeeze] using h
  | cons a t ih =>
    cases t with
    | nil => simpa [squeeze] using h
    | cons b t2 =>
      simp only [squeeze] at h
      split at h
      · exact List.mem_cons_of_mem _ (ih h)
      · rcases List.mem_cons.mp h with rfl | h2
        · exact List.mem_cons_self _ _
        · exact List.mem_cons_of_mem _ (ih h2)

theorem mem_pyStrip {c : Char} {l : List Char} (h : c ∈ pyStrip l) :
    c ∈ l := by
  unfold pyStrip at h
  rw [List.mem_reverse] at h
  have h2 := (List.dropWhile_sublist isSpaceCh).subset h
  rw [List.mem_reverse] at h2
  exact (List.dropWhile_sublist isSpaceCh).subset h2

/-- The no-adjacent-double-space relation. -/
def noDS (a b : Char) : Prop := ¬(a = ' ' ∧ b = ' ')

instance (a b : Char) : Decidable (noDS a b) := by
  unfold noDS
  infer_instance

theorem squeeze_head {b : Char} {t : List Char} (hb : b ≠ ' ') :
    (squeeze (b :: t)).head? = some b := by
  cases t with
  | nil => rfl
  | cons c2 t2 =>
    simp only [squeeze]
    rw [if_neg (by simp [hb])]
    rfl

theorem squeeze_chain (l : List Char) : List.Chain' noDS (squeeze l) := by
  induction l with
  | nil => simp [squeeze]
  | cons a t ih =>
    cases t with
    | nil => simp [squeeze]
    | cons b t2 =>
      simp only [squeeze]
      split
      · exact ih
      · next hab =>
        rw [List.chain'_cons']
        refine ⟨?_, ih⟩
        intro x hx
        by_cases ha : a = ' '
        · have hb : ¬b = ' ' := by
            intro hb
            exact hab (by simp [ha, hb])
          rw [squeeze_head hb] at hx
          cases hx
          exact fun hc => hb hc.2
        · exact fun hc => ha hc.1

theorem squeeze_of_chain {l : List Char} (h : List.Chain' noDS l) :
    squeeze l = l := by
  induction l with
  | nil => rfl
  | cons a t ih =>
    cases t with
    | nil => rfl
    | cons b t2 =>
      rw [List.chain'_cons] at h
      simp only [squeeze]
      rw [if_neg (by simpa [noDS] using h.1), ih h.2]

theorem head?_dropWhile_not {p : Char → Bool} {l : List Char} :
    ∀ x ∈ (l.dropWhile p).head?, p x = false := by
  induction l with
  | nil => simp
  | cons c t ih =>
    by_cases hc : p c = true
    · rw [List.dropWhile_cons_of_pos hc]
      exact ih
    · rw [List.dropWhile_cons_of_neg hc]
      intro x hx
      cases hx
      simpa using hc

theorem dropWhile_of_head {p : Char → Bool} {l : List Char}
    (h : ∀ x ∈ l.head?, p x = false) : l.dropWhile p = l := by
  cases l with
  | nil => rfl
  | cons c t =>
    have := h c rfl
    exact List.dropWhile_cons_of_neg (by simp [this])

theorem pyStrip_getLast (l : List Char) :
    ∀ x ∈ (pyStrip l).getLast?, isSpaceCh x = false := by
  intro x hx
  unfold pyStrip at hx
  rw [List.getLast?_reverse] at hx
  exact head?_dropWhile_not x hx

theorem pyStrip_head (l : List Char) :
    ∀ x ∈ (pyStrip l).head?, isSpaceCh x = false := by
  intro x hx
  unfold pyStrip at hx
  rw [List.head?_reverse] at hx
  by_cases hBe : (l.dropWhile isSpaceCh).reverse.dropWhile isSpaceCh = []
  · rw [hBe] at hx
    simp at hx
  · obtain ⟨pre, hpre⟩ : (l.dropWhile isSpaceCh).reverse.dropWhile isSpaceCh <:+
        (l.dropWhile isSpaceCh).reverse := List.dropWhile_suffix _
    have hlast : ((l.dropWhile isSpaceCh).reverse.dropWhile isSpaceCh).getLast? =
        (l.dropWhile isSpaceCh).reverse.getLast? := by
      conv_rhs => rw [← hpre]
      exact (List.getLast?_append_of_ne_nil pre hBe).symm
    rw [hlast, List.getLast?_reverse] at hx
    exact head?_dropWhile_not x hx

/-- A list whose two ends are not whitespace is fixed by `pyStrip`. -/
theorem pyStrip_of_stripped {l : List Char}
    (hh : ∀ x ∈ l.head?, isSpaceCh x = false)
    (hl : ∀ x ∈ l.getLast?, isSpaceCh x = false) : pyStrip l = l := by
  unfold pyStrip
  rw [dropWhile_of_head hh]
  rw [dropWhile_of_head (by
    intro x hx
    rw [List.head?_reverse] at hx
    exact hl x hx)]
  exact List.reverse_reverse l

/-- Stripping by `pyStrip` preserves the no-double-space property. -/
theorem pyStrip_chain {l : List Char} (h : List.Chain' noDS l) :
    List.Chain' noDS (pyStrip l) := by
  unfold pyStrip
  have symmNoDS : ∀ a b, noDS a b → flip noDS a b := by
    intro a b hab hc
    exact hab ⟨hc.2, hc.1⟩
  have h1 : List.Chain' noDS (l.dropWhile isSpaceCh) :=
    h.suffix (List.dropWhile_suffix _)
  have h2 : List.Chain' noDS (l.dropWhile isSpaceCh).reverse :=
    List.chain'_reverse.mpr (h1.imp symmNoDS)
  have h3 : List.Chain' noDS ((l.dropWhile isSpaceCh).reverse.dropWhile isSpaceCh) :=
    h2.suffix (List.dropWhile_suffix _)
  exact List.chain'_reverse.mpr (h3.imp symmNoDS)

/-- The whitespace tail of `clean` (map, squeeze, strip). -/
def wsTail (l : List Char) : List Char :=
  pyStrip (squeeze (l.map wsMap))

/-- The tail `wsTail` is idempotent: its output has all whitespace as `' '`, no
double spaces, and non-space ends, and any such list it fixes. -/
theorem wsTail_idem (l : List Char) : wsTail (wsTail l) = wsTail l := by
  have hmemfix : ∀ c ∈ wsTail l, wsMap c = c := by
    intro c hc
    have h1 : c ∈ (l.map wsMap) := mem_squeeze (mem_pyStrip hc)
    obtain ⟨d, _, rfl⟩ := List.mem_map.mp h1
    exact wsMap_idem d
  have hchain : List.Chain' noDS (wsTail l) :=
    pyStrip_chain (squeeze_chain _)
  show pyStrip (squeeze ((wsTail l).map wsMap)) = wsTail l
  rw [map_fix hmemfix, squeeze_of_chain hchain]
  exact pyStrip_of_stripped (pyStrip_head _) (pyStrip_getLast _)

/-- On inputs with none of the trigger characters `<`, `&`, `\x7b`, `[`,
`clean` reduces to its whitespace tail. -/
theorem cleanL_of_plain {l : List Char}
    (h1 : '<' ∉ l) (h2 : '&' ∉ l) (h3 : '\x7b' ∉ l) (h4 : '[' ∉ l) :
    cleanL l = wsTail l := by
  unfold cleanL
  rw [tagScan_id h1, ampScan_id h2, nbspScan_id h2, numEntScan_id h2,
    tmplScan_id h3, linkScan_id h4]
  rfl

/-- The tail `wsTail` introduces no character beyond `' '` and the input's own. -/
theorem mem_wsTail {c : Char} {l : List Char} (h : c ∈ wsTail l) :
    c = ' ' ∨ c ∈ l := by
  have h1 : c ∈ l.map wsMap := mem_squeeze (mem_pyStrip h)
  obtain ⟨d, hd, rfl⟩ := List.mem_map.mp h1
  unfold wsMap
  by_cases hsp : isSpaceCh d = true
  · simp [hsp]
  · simp [hsp]
    exact Or.inr hd

/-! ## Lemmas about the link collector -/

/-- First-occurrence deduplication against an already-seen set: the spec
form of the collector's `seen`/`links` bookkeeping. -/
def dedupAcc (seen : List String) : List String → List String
  | [] => []
  | u :: us =>
    if u ∈ seen then dedupAcc seen us
    else u :: dedupAcc (u :: seen) us

theorem mem_dedupAcc {u : String} {seen l : List String}
    (h : u ∈ dedupAcc seen l) : u ∈ l ∧ u ∉ seen := by
  induction l generalizing seen with
  | nil => simp [dedupAcc] at h
  | cons v vs ih =>
    simp only [dedupAcc] at h
    split at h
    · obtain ⟨h1, h2⟩ := ih h
      exact ⟨List.mem_cons_of_mem _ h1, h2⟩
    · next hv =>
      rcases List.mem_cons.mp h with rfl | h2
      · exact ⟨List.mem_cons_self _ _, hv⟩
      · obtain ⟨h1, h3⟩ := ih h2
        exact ⟨List.mem_cons_of_mem _ h1,
          fun hs => h3 (List.mem_cons_of_mem _ hs)⟩

theorem dedupAcc_nodup (seen l : List String) : (dedupAcc seen l).Nodup := by
  induction l generalizing seen with
  | nil => simp [dedupAcc]
  | cons v vs ih =>
    simp only [dedupAcc]
    split
    · exact ih _
    · refine List.nodup_cons.mpr ⟨?_, ih _⟩
      intro hmem
      exact (mem_dedupAcc hmem).2 (List.mem_cons_self _ _)

theorem dedupAcc_sublist (seen l : List String) :
    (dedupAcc seen l).Sublist l := by
  induction l generalizing seen with
  | nil => simp [dedupAcc]
  | cons v vs ih =>
    simp only [dedupAcc]
    split
    · exact (ih _).cons _
    · exact (ih _).cons₂ _

theorem dedupAcc_congr {s1 s2 : List String} (l : List String)
    (h : ∀ u, u ∈ s1 ↔ u ∈ s2) : dedupAcc s1 l = dedupAcc s2 l := by
  induction l generalizing s1 s2 with
  | nil => rfl
  | cons v vs ih =>
    simp only [dedupAcc]
    by_cases hv : v ∈ s1
    · rw [if_pos hv, if_pos ((h v).mp hv)]
      exact ih h
    · rw [if_neg hv, if_neg (fun hx => hv ((h v).mpr hx))]
      congr 1
      apply ih
      intro u
      simp only [List.mem_cons]
      rw [h u]

theorem dedupAcc_append (seen xs ys : List String) :
    dedupAcc seen (xs ++ ys) =
      dedupAcc seen xs ++ dedupAcc (seen ++ dedupAcc seen xs) ys := by
  induction xs generalizing seen with
  | nil => simp [dedupAcc]
  | cons v vs ih =>
    simp only [List.cons_append, dedupAcc, List.append_eq]
    by_cases hv : v ∈ seen
    · rw [if_pos hv, if_pos hv, ih]
    · rw [if_neg hv, if_neg hv]
      simp only [List.cons_append]
      rw [ih]
      congr 1
      congr 1
      apply dedupAcc_congr
      intro u
      simp [List.mem_cons, List.mem_append]
      tauto

/-- The non-excluded candidate URLs of one scanned page, in discovery
order. -/
def okUrls (ps : List String) : List String :=
  (ps.filter (fun p => !skipHit p)).map urlOfPath

/-- All non-excluded candidate URLs over a page list, in discovery
order. -/
def aggUrls (fetchFn : String → String) (pages : List String) :
    List String :=
  pages.flatMap (fun lp => okUrls (pathsOf (fetchFn lp)))

theorem scanMatches_spec {target : Nat} (ps : List String)
    (seen links : List String) (hnd : links.Nodup)
    (hsl : ∀ u, u ∈ seen ↔ u ∈ links) (hlen : links.length < target) :
    (scanMatches target ps (seen, links)).2 =
        (links ++ dedupAcc seen (okUrls ps)).take target ∧
      (scanMatches target ps (seen, links)).2.Nodup ∧
      (∀ u, u ∈ (scanMatches target ps (seen, links)).1 ↔
        u ∈ (scanMatches target ps (seen, links)).2) ∧
      (scanMatches target ps (seen, links)).2.length ≤ target := by
  induction ps generalizing seen links with
  | nil =>
    simp only [scanMatches, okUrls, List.filter_nil, List.map_nil, dedupAcc,
      List.append_nil]
    exact ⟨(List.take_all_of_le (le_of_lt hlen)).symm, hnd, hsl,
      le_of_lt hlen⟩
  | cons p ps ih =>
    by_cases hskip : skipHit p = true
    · have heq : scanMatches target (p :: ps) (seen, links) =
          scanMatches target ps (seen, links) := by
        simp [scanMatches, hskip]
      have hok : okUrls (p :: ps) = okUrls ps := by
        simp [okUrls, List.filter_cons, hskip]
      rw [heq, hok]
      exact ih seen links hnd hsl hlen
    · have hskipF : skipHit p = false := by
        revert hskip
        cases skipHit p <;> simp
      have hok : okUrls (p :: ps) = urlOfPath p :: okUrls ps := by
        simp [okUrls, List.filter_cons, hskipF]
      rw [hok]
      by_cases hmem : urlOfPath p ∈ seen
      · have heq : scanMatches target (p :: ps) (seen, links) =
            scanMatches target ps (seen, links) := by
          simp only [scanMatches, hskipF, Bool.false_eq_true, if_false,
            if_pos hmem]
          rw [if_neg (by omega)]
        have hd : dedupAcc seen (urlOfPath p :: okUrls ps) =
            dedupAcc seen (okUrls ps) := by
          simp only [dedupAcc, if_pos hmem]
        rw [heq, hd]
        exact ih seen links hnd hsl hlen
      · have hd : dedupAcc seen (urlOfPath p :: okUrls ps) =
            urlOfPath p :: dedupAcc (urlOfPath p :: seen) (okUrls ps) := by
          simp only [dedupAcc, if_neg hmem]
        have hnotl : urlOfPath p ∉ links := fun hl => hmem ((hsl _).mpr hl)
        have hnd2 : (links ++ [urlOfPath p]).Nodup := by
          simp [List.nodup_append, hnd, hnotl]
        have hsl2 : ∀ u, u ∈ seen ++ [urlOfPath p] ↔
            u ∈ links ++ [urlOfPath p] := by
          intro u
          simp [List.mem_append, hsl u]
        by_cases hfull : (links ++ [urlOfPath p]).length ≥ target
        · have hlen2 : links.length + 1 = target := by
            simp at hfull
            omega
          have heq : scanMatches target (p :: ps) (seen, links) =
              (seen ++ [urlOfPath p], links ++ [urlOfPath p]) := by
            simp only [scanMatches, hskipF, Bool.false_eq_true, if_false,
              if_neg hmem]
            rw [if_pos hfull]
          rw [heq, hd]
          refine ⟨?_, hnd2, hsl2, by simp; omega⟩
          rw [List.take_append_eq_append_take,
            List.take_all_of_le (by omega)]
          have h1 : target - links.length = 1 := by omega
          rw [h1]
          rfl
        · have heq : scanMatches target (p :: ps) (seen, links) =
              scanMatches target ps
                (seen ++ [urlOfPath p], links ++ [urlOfPath p]) := by
            simp only [scanMatches, hskipF, Bool.false_eq_true, if_false,
              if_neg hmem]
            rw [if_neg hfull]
          rw [heq, hd]
          have hlt2 : (links ++ [urlOfPath p]).length < target := by
            omega
          obtain ⟨h1, h2, h3, h4⟩ :=
            ih (seen ++ [urlOfPath p]) (links ++ [urlOfPath p]) hnd2 hsl2 hlt2
          refine ⟨?_, h2, h3, h4⟩
          rw [h1]
          congr 1
          rw [List.append_assoc]
          simp only [List.singleton_append]
          congr 1
          congr 1
          apply dedupAcc_congr
          intro u
          simp [List.mem_cons, List.mem_append]
          tauto

/-- Once the target is reached, the page loop stops at once. -/
theorem collectFrom_of_full {fetchFn : String → String} {target : Nat}
    (pages : List String) (s1 s2 : List String)
    (h : s2.length ≥ target) :
    collectFrom fetchFn target pages (s1, s2) = s2 := by
  cases pages with
  | nil => rfl
  | cons lp lps =>
    simp only [collectFrom]
    rw [if_pos h]

theorem collectFrom_spec {fetchFn : String → String} {target : Nat}
    (pages : List String) (seen links : List String) (hnd : links.Nodup)
    (hsl : ∀ u, u ∈ seen ↔ u ∈ links) (hlen : links.length ≤ target) :
    collectFrom fetchFn target pages (seen, links) =
      (links ++ dedupAcc seen (aggUrls fetchFn pages)).take target := by
  induction pages generalizing seen links with
  | nil =>
    simp only [collectFrom, aggUrls, List.flatMap_nil, dedupAcc,
      List.append_nil]
    exact (List.take_all_of_le hlen).symm
  | cons lp lps ih =>
    have hagg : aggUrls fetchFn (lp :: lps) =
        okUrls (pathsOf (fetchFn lp)) ++ aggUrls fetchFn lps := by
      simp [aggUrls, List.flatMap_cons]
    rw [hagg]
    by_cases hge : links.length ≥ target
    · have heq : collectFrom fetchFn target (lp :: lps) (seen, links) =
          links := by
        simp only [collectFrom]
        rw [if_pos hge]
      rw [heq, List.take_append_of_le_length (by omega),
        List.take_all_of_le hlen]
    · have hlt : links.length < target := by omega
      have heq : collectFrom fetchFn target (lp :: lps) (seen, links) =
          collectFrom fetchFn target lps
            (scanMatches target (pathsOf (fetchFn lp)) (seen, links)) := by
        simp only [collectFrom]
        rw [if_neg hge]
      rw [heq]
      obtain ⟨h1, h2, h3, h4⟩ :=
        scanMatches_spec (pathsOf (fetchFn lp)) seen links hnd hsl hlt
      rcases hst : scanMatches target (pathsOf (fetchFn lp)) (seen, links)
        with ⟨s1, s2⟩
      rw [hst] at h1 h2 h3 h4
      simp only at h1 h2 h3 h4
      rw [dedupAcc_append, ← List.append_assoc]
      by_cases hfull : s2.length ≥ target
      · rw [collectFrom_of_full lps s1 s2 hfull, h1]
        have hXlen : target ≤
            (links ++ dedupAcc seen (okUrls (pathsOf (fetchFn lp)))).length := by
          have := List.length_take target
            (links ++ dedupAcc seen (okUrls (pathsOf (fetchFn lp))))
          rw [h1] at hfull
          rw [this] at hfull
          omega
        exact (List.take_append_of_le_length hXlen).symm
      · have hlt2 : s2.length < target := by omega
        have hs2 : s2 = links ++ dedupAcc seen (okUrls (pathsOf (fetchFn lp))) := by
          rw [h1]
          apply List.take_all_of_le
          have hl := List.length_take target
            (links ++ dedupAcc seen (okUrls (pathsOf (fetchFn lp))))
          rw [h1] at hlt2
          rw [hl] at hlt2
          omega
        rw [ih s1 s2 h2 h3 (le_of_lt hlt2), hs2]
        congr 1
        congr 1
        apply dedupAcc_congr
        intro u
        constructor
        · intro hu
          have hu2 := (h3 u).mp hu
          rw [hs2] at hu2
          rcases List.mem_append.mp hu2 with h | h
          · exact List.mem_append.mpr (Or.inl ((hsl u).mpr h))
          · exact List.mem_append.mpr (Or.inr h)
        · intro hu
          apply (h3 u).mpr
          rw [hs2]
          rcases List.mem_append.mp hu with h | h
          · exact List.mem_append.mpr (Or.inl ((hsl u).mp h))
          · exact List.mem_append.mpr (Or.inr h)

/-- The collector `collect_driver_links` is the first-seen deduplication of the
non-excluded discovery stream over `LIST_PAGES`, truncated to the
target. -/
theorem collect_eq (fetchFn : String → String) (target : Nat) :
    collect_driver_links fetchFn target =
      (dedupAcc [] (aggUrls fetchFn LIST_PAGES)).take target := by
  unfold collect_driver_links
  rw [collectFrom_spec LIST_PAGES [] [] (by simp) (by simp) (Nat.zero_le _)]
  simp [List.take_take]

/-! ## Helper lemmas for the orchestrator -/

theorem parse_driver_page_wiki_url {fetchFn : String → String}
    {todayYear : Int} {url : String} {d : DriverRecord}
    (h : parse_driver_page fetchFn todayYear url = some d) :
    d.wiki_url = url ∧ fetchFn url ≠ "" := by
  simp only [parse_driver_page] at h
  split at h
  · exact absurd h (by simp)
  · next hne =>
    have hd := Option.some.inj h
    subst hd
    exact ⟨rfl, hne⟩

theorem urlOfPath_ne_empty (p : String) : urlOfPath p ≠ "" := by
  unfold urlOfPath
  intro h
  have hd := congrArg String.data h
  rw [show ("https://en.wikipedia.org" ++ p).data =
    "https://en.wikipedia.org".data ++ p.data from rfl] at hd
  simp at hd

theorem mem_collect {fetchFn : String → String} {target : Nat} {u : String}
    (h : u ∈ collect_driver_links fetchFn target) :
    ∃ p, skipHit p = false ∧ u = urlOfPath p := by
  rw [collect_eq] at h
  have h1 := (List.take_sublist _ _).subset h
  have h2 := (dedupAcc_sublist _ _).subset h1
  unfold aggUrls at h2
  obtain ⟨lp, -, hmem⟩ := List.mem_flatMap.mp h2
  unfold okUrls at hmem
  obtain ⟨p, hp, rfl⟩ := List.mem_map.mp hmem
  have hf := List.mem_filter.mp hp
  refine ⟨p, ?_, rfl⟩
  simpa using hf.2

/-- The record-validity check of the schema invariant, executable. -/
def validRecord (fetchFn : String → String) (d : DriverRecord) : Bool :=
  decide ((recordFields d).map Prod.fst = schemaKeys) &&
    decide (d.name ≠ "") && decide (d.name.length > 3) &&
    decide (d.wiki_url ≠ "") && decide (fetchFn d.wiki_url ≠ "")

/-- The no-match direction bridging `yearAt` over all offsets and the
claim's substring phrasing. -/
theorem noYear_iff (l : List Char) :
    (∀ i, yearAt (l.drop i) = none) ↔
      ¬∃ pre mid suf, l = pre ++ mid ++ suf ∧ yearShape mid := by
  constructor
  · rintro hall ⟨pre, mid, suf, hsplit, hshape⟩
    have hdrop : l.drop pre.length = mid ++ suf := by
      rw [hsplit, List.append_assoc, List.drop_left]
    have hc := hall pre.length
    rw [hdrop, yearAt_of_shape hshape] at hc
    exact absurd hc (by simp)
  · intro hno i
    rcases hy : yearAt (l.drop i) with _ | y
    · rfl
    · exfalso
      obtain ⟨mid, suf, hms, hshape, -⟩ := yearAt_some_shape hy
      refine hno ⟨l.take i, mid, suf, ?_, hshape⟩
      rw [List.append_assoc, ← hms, List.take_append_drop]

/-! ## Concrete fixtures -/

/-- A fixture aggregator page holding one candidate driver link. -/
def sampleListHtml : String := "<a href=\"/wiki/Lewis_Hamilton\">LH</a>"

/-- A fixture driver page: a title and an infobox whose nationality
cell lists two links, the last one carrying a parenthetical
qualifier. -/
def sampleDriverHtml : String :=
  "<title>Lewis Hamilton - Wikipedia</title><table class=\"infobox x\"><tr><th>Nationality</th><td><a href=a>United Kingdom</a> <a href=b>British (racing)</a></td></tr></table>"

/-- A fixture network: the first aggregator page serves
`sampleListHtml`, the discovered driver page serves `sampleDriverHtml`,
and everything else fails (empty content). -/
def sampleFetch : String → String := fun u =>
  if u = "https://en.wikipedia.org/wiki/List_of_Formula_One_drivers" then
    sampleListHtml
  else if u = "https://en.wikipedia.org/wiki/Lewis_Hamilton" then
    sampleDriverHtml
  else ""

/-! ## The claims -/

/-- C1 (counterexample): persistence is not atomic.  With an empty
network, target 0 and previous output `"x"`, the output file passes
through the truncated state `""` (after `open(out, "w")`), which is
neither the old content `"x"` nor the new serialized collection
`"[]"`. -/
theorem C1_persist_not_atomic_cex :
    crawlFileStates (fun _ => "") 2025 0 "x" = ["x", "x", "", "[]"] ∧
      ("" : String) ≠ "x" ∧
      ("" : String) ≠ jsonDump (crawlRecords (fun _ => "") 2025 0) :=
  ⟨by decide, by decide, by decide⟩

/-- C1 (amended): an interruption anywhere before the Persisting step
leaves the previously persisted file unchanged, and a completed run
ends with the full new serialized collection; but the write itself is
not atomic, because `open(out, "w")` truncates before `json.dump`
writes (see the counterexample). -/
theorem C1_persist_amended (fetchFn : String → String) (todayYear : Int)
    (target : Nat) (old : String) :
    (∀ i, i + 2 < (crawlFileStates fetchFn todayYear target old).length →
      (crawlFileStates fetchFn todayYear target old)[i]? = some old) ∧
    (crawlFileStates fetchFn todayYear target old).getLast? =
      some (jsonDump (crawlRecords fetchFn todayYear target)) := by
  constructor
  · intro i hi
    unfold crawlFileStates at hi ⊢
    rw [List.length_append, List.length_replicate] at hi
    simp only [List.length_cons, List.length_nil] at hi
    rw [List.getElem?_append_left (by
      rw [List.length_replicate]
      omega)]
    rw [List.getElem?_replicate]
    rw [if_pos (by omega)]
  · unfold crawlFileStates
    rw [List.getLast?_append_of_ne_nil _ (by simp)]
    rfl

/-- C1 (witness for the amended claim). -/
theorem C1_persist_amended_witness :
    (crawlFileStates (fun _ => "") 2025 0 "x")[0]? = some "x" ∧
    (crawlFileStates (fun _ => "") 2025 0 "x").getLast? =
      some (jsonDump (crawlRecords (fun _ => "") 2025 0)) := by
  have h := C1_persist_amended (fun _ => "") 2025 0 "x"
  exact ⟨h.1 0 (by decide), h.2⟩

/-- C2 (counterexample): all three behaviors the claim asserts fail.
`"seven-time World Champion"` yields `"1"` (the word branch requires a
space that the hyphenated phrase lacks, so the bare marker matches with
no groups), a bare `"World Champion"` yields `"1"` (the source comment
marks this arm "matched but no number prefix"), and text with no
champion marker yields `"0"` (the no-match arm). -/
theorem C2_titles_cex :
    parse_titles "seven-time World Champion" = "1" ∧
      parse_titles "seven-time World Champion" ≠ "7" ∧
      parse_titles "World Champion" = "1" ∧
      parse_titles "World Champion" ≠ "0" ∧
      parse_titles "hello there" = "0" ∧
      parse_titles "hello there" ≠ "N/A" :=
  ⟨by decide, by decide, by decide, by decide, by decide, by decide⟩

/-- C2 (amended): `parse_titles` extracts the count only when the
qualifier is followed by the extra space the pattern requires:
`"seven World Champion"` yields `"7"`, but the hyphenated
`"seven-time World Champion"` falls through to the bare marker and
yields `"1"`; a bare `"World Champion"` also yields `"1"`, and text
with no champion marker yields `"0"` (never `"N/A"`). -/
theorem C2_titles_amended :
    parse_titles "seven World Champion" = "7" ∧
      parse_titles "seven-time World Champion" = "1" ∧
      parse_titles "World Champion" = "1" ∧
      parse_titles "hello there" = "0" :=
  ⟨by decide, by decide, by decide, by decide⟩

/-- C3 (counterexample): `clean` is not idempotent.  Removing the empty
template from `"&am\x7b\x7bx\x7d\x7dp;"`-like input splices a fresh
`"&amp;"` together, which only the next application decodes. -/
theorem C3_clean_not_idempotent_cex :
    clean "&am\x7b\x7b\x7d\x7dp;" = "&amp;" ∧
      clean (clean "&am\x7b\x7b\x7d\x7dp;") = "&" ∧
      clean (clean "&am\x7b\x7b\x7d\x7dp;") ≠ clean "&am\x7b\x7b\x7d\x7dp;" :=
  ⟨by decide, by decide, by decide⟩

/-- C3 (amended): normalization is idempotent on every input that
contains none of the markup trigger characters `<`, `&`, `\x7b`, `[`;
on general inputs a second application can differ, because removing a
template or link can splice together a new entity or tag (see the
counterexample). -/
theorem C3_clean_idempotent_amended (s : String)
    (h : ∀ c ∈ s.data, c ≠ '<' ∧ c ≠ '&' ∧ c ≠ '\x7b' ∧ c ≠ '[') :
    clean (clean s) = clean s := by
  have h1 : '<' ∉ s.data := fun hm => (h _ hm).1 rfl
  have h2 : '&' ∉ s.data := fun hm => (h _ hm).2.1 rfl
  have h3 : '\x7b' ∉ s.data := fun hm => (h _ hm).2.2.1 rfl
  have h4 : '[' ∉ s.data := fun hm => (h _ hm).2.2.2 rfl
  have hfirst : clean s = ⟨wsTail s.data⟩ := by
    show (⟨cleanL s.data⟩ : String) = _
    rw [cleanL_of_plain h1 h2 h3 h4]
  have g1 : '<' ∉ wsTail s.data := by
    intro hm
    rcases mem_wsTail hm with h' | h'
    · exact absurd h' (by decide)
    · exact h1 h'
  have g2 : '&' ∉ wsTail s.data := by
    intro hm
    rcases mem_wsTail hm with h' | h'
    · exact absurd h' (by decide)
    · exact h2 h'
  have g3 : '\x7b' ∉ wsTail s.data := by
    intro hm
    rcases mem_wsTail hm with h' | h'
    · exact absurd h' (by decide)
    · exact h3 h'
  have g4 : '[' ∉ wsTail s.data := by
    intro hm
    rcases mem_wsTail hm with h' | h'
    · exact absurd h' (by decide)
    · exact h4 h'
  rw [hfirst]
  show (⟨cleanL (wsTail s.data)⟩ : String) = _
  rw [cleanL_of_plain g1 g2 g3 g4, wsTail_idem]

/-- C3 (witness for the amended claim). -/
theorem C3_clean_idempotent_amended_witness :
    clean (clean "a  b") = clean "a  b" :=
  C3_clean_idempotent_amended "a  b" (by decide)

set_option maxRecDepth 10000 in
/-- C4 (counterexample): the extractor keeps parenthetical content, and
the crawl persists it verbatim: the record built from the fixture page
stores `"British (racing)"`, not the stripped `"British"` the claim
asserts for the persisted value. -/
theorem C4_nationality_cex :
    (crawlRecords sampleFetch 2025 1).map DriverRecord.nationality =
        ["British (racing)"] ∧
      ("British (racing)" : String) ≠ "British" :=
  ⟨by decide, by decide⟩

/-- C4 (amended): `parse_nationality` returns the last linked text of
the Nationality cell verbatim (whitespace-stripped only) and `"N/A"`
when no such cell exists; parenthetical stripping happens only in the
consumer layer's `enrich`, never in the persisted value. -/
theorem C4_nationality_amended :
    parse_nationality "<tr><th>Nationality</th><td><a href=x>United Kingdom</a> <a href=y>British</a></td></tr>" = "British" ∧
      parse_nationality "<tr><th>Nationality</th><td><a href=x>United Kingdom</a> <a href=y>British (racing)</a></td></tr>" = "British (racing)" ∧
      parse_nationality "<p>no cell</p>" = "N/A" ∧
      enrichNat (some "British (racing)") = "British" :=
  ⟨by decide, by decide, by decide, by decide⟩

/-- C5 (code bug): the consumer-layer `enrich` computes the age from
the hardcoded constant 2025: a record lacking `age` with
`dob = "29 July 1981"` is enriched to `"44"` whatever the real current
year is, while the extraction-time path at clock year 2026 computes
`"45"`.  The spec's "computed against the current date, never a
hardcoded constant year" names exactly this path as the deviation. -/
theorem C5_age_hardcoded_bug :
    enrichAge none (some "29 July 1981") = "44" ∧
      parse_age 2026 "29 July 1981" = "45" ∧
      ("44" : String) ≠ "45" :=
  ⟨by decide, by decide, by decide⟩

/-- C6: `fetch` never lets a failure of the attempt escape to its
caller: on success it returns the decoded body and logs nothing; on any
error it returns `""` and logs exactly one warning whose text carries
both the URL and the cause. -/
theorem C6_fetch_total (url : String) (o : FetchOutcome) :
    (∃ body, o = .ok body ∧ fetch url o = (body, [])) ∨
    (∃ e, o = .err e ∧ (fetch url o).1 = "" ∧
      (fetch url o).2 = [warnLine url e] ∧
      (∃ a b, warnLine url e = a ++ url ++ b) ∧
      (∃ a, warnLine url e = a ++ e)) := by
  cases o with
  | ok body => exact Or.inl ⟨body, rfl, rfl⟩
  | err e =>
    refine Or.inr ⟨e, rfl, rfl, rfl,
      ⟨"  [WARN] ", ": " ++ e, ?_⟩, ⟨"  [WARN] " ++ url ++ ": ", rfl⟩⟩
    unfold warnLine
    rw [String.append_assoc]

/-- C7: every record in the crawl output carries all fourteen schema
fields as strings (by the record type and `recordFields`), has a name
longer than three characters (hence non-empty), a non-empty source URL,
and stems from a URL whose fetch returned content — empty fetches
contribute nothing. -/
theorem C7_record_validity (fetchFn : String → String) (todayYear : Int)
    (target : Nat) :
    (crawlRecords fetchFn todayYear target).all (validRecord fetchFn) = true := by
  rw [List.all_eq_true]
  intro d hd
  unfold crawlRecords at hd
  obtain ⟨url, hurl, hfm⟩ := List.mem_filterMap.mp hd
  rcases hp : parse_driver_page fetchFn todayYear url with _ | d0
  · rw [hp] at hfm
    simp at hfm
  · rw [hp] at hfm
    simp only at hfm
    by_cases hk : keepRecord d0
    · rw [if_pos hk] at hfm
      have hdd := Option.some.inj hfm
      subst hdd
      obtain ⟨hwu, hne⟩ := parse_driver_page_wiki_url hp
      obtain ⟨p, -, hup⟩ := mem_collect hurl
      unfold validRecord
      simp only [Bool.and_eq_true, decide_eq_true_eq]
      refine ⟨⟨⟨⟨rfl, hk.1⟩, hk.2⟩, ?_⟩, ?_⟩
      · rw [hwu, hup]
        exact urlOfPath_ne_empty p
      · rw [hwu]
        exact hne
    · rw [if_neg hk] at hfm
      simp at hfm

/-- C8: over any network contents and target, the collector returns
exactly the first-seen deduplication of the non-excluded discovery
stream, truncated to the target; hence its output has no duplicates,
respects discovery order (it is a sublist of the stream), never exceeds
the target, and contains no URL built from an excluded path.  The same
holds for an arbitrary aggregator-page list via `collectFrom`. -/
theorem C8_collector_contract (fetchFn : String → String) (target : Nat) :
    collect_driver_links fetchFn target =
        (dedupAcc [] (aggUrls fetchFn LIST_PAGES)).take target ∧
      (collect_driver_links fetchFn target).Nodup ∧
      (collect_driver_links fetchFn target).length ≤ target ∧
      (collect_driver_links fetchFn target).Sublist
        (aggUrls fetchFn LIST_PAGES) ∧
      (∀ pages : List String, collectFrom fetchFn target pages ([], []) =
        (dedupAcc [] (aggUrls fetchFn pages)).take target) ∧
      ∀ u ∈ collect_driver_links fetchFn target,
        ∃ p, skipHit p = false ∧ u = urlOfPath p := by
  refine ⟨collect_eq fetchFn target, ?_, ?_, ?_, ?_, ?_⟩
  · rw [collect_eq]
    exact (List.take_sublist _ _).nodup (dedupAcc_nodup _ _)
  · rw [collect_eq]
    exact List.length_take_le _ _
  · rw [collect_eq]
    exact (List.take_sublist _ _).trans (dedupAcc_sublist _ _)
  · intro pages
    rw [collectFrom_spec pages [] [] (by simp) (by simp) (Nat.zero_le _)]
    simp
  · intro u hu
    exact mem_collect hu

set_option maxRecDepth 10000 in
/-- C8 (witness): the fixture network discovers one driver URL; it
comes from a non-excluded path. -/
theorem C8_collector_contract_witness :
    ∃ p, skipHit p = false ∧
      "https://en.wikipedia.org/wiki/Lewis_Hamilton" = urlOfPath p :=
  (C8_collector_contract sampleFetch 1).2.2.2.2.2 _ (by decide)

/-- C9 (counterexample): `parse_age` is not a function of its scope
text alone: the same dob string yields different values at clock years
2025 and 2026. -/
theorem C9_extractor_clock_cex :
    parse_age 2025 "29 July 1981" = "44" ∧
      parse_age 2026 "29 July 1981" = "45" ∧
      parse_age 2025 "29 July 1981" ≠ parse_age 2026 "29 July 1981" :=
  ⟨by decide, by decide, by decide⟩

/-- C9 (amended): every extractor other than `parse_age` is modeled as
a function of its scope text alone; `parse_age` additionally reads the
clock: whenever the year scan finds a year, its value is
`str(todayYear - year)` and therefore genuinely differs between any two
distinct clock years on the same text. -/
theorem C9_extractor_purity_amended (Y1 Y2 : Int) (dob : String) (y : Nat)
    (hscan : yearScan dob.data = some y) (hne : Y1 ≠ Y2) :
    parse_age Y1 dob = pyStrInt (Y1 - (y : Int)) ∧
      parse_age Y1 dob ≠ parse_age Y2 dob := by
  constructor
  · unfold parse_age
    rw [hscan]
  · unfold parse_age
    rw [hscan]
    intro hh
    have := pyStrInt_inj hh
    omega

/-- C9 (witness for the amended claim). -/
theorem C9_extractor_purity_amended_witness :
    parse_age 2025 "1981" = pyStrInt (2025 - 1981) ∧
      parse_age 2025 "1981" ≠ parse_age 2026 "1981" :=
  C9_extractor_purity_amended 2025 2026 "1981" 1981 (by decide) (by decide)

/-- C10: `parse_age` returns `"N/A"` exactly when the dob string has no
four-character substring of the shape `19dd`/`20dd`; when such
substrings exist, the leftmost one is the birth year used; and
`"29 July 1881"` yields `"N/A"` although it plainly contains a year. -/
theorem C10_parse_age_years (Y : Int) (dob : String) :
    (parse_age Y dob = "N/A" ↔
        ¬∃ pre mid suf, dob.data = pre ++ mid ++ suf ∧ yearShape mid) ∧
      (∀ pre mid suf, dob.data = pre ++ mid ++ suf → yearShape mid →
        (∀ pre2 mid2 suf2, dob.data = pre2 ++ mid2 ++ suf2 →
          yearShape mid2 → pre.length ≤ pre2.length) →
        parse_age Y dob = pyStrInt (Y - (yearVal mid : Int))) ∧
      parse_age Y "29 July 1881" = "N/A" := by
  have hscan : parse_age Y dob = "N/A" ↔ yearScan dob.data = none := by
    unfold parse_age
    rcases hy : yearScan dob.data with _ | y
    · simp
    · constructor
      · intro hh
        exact absurd hh (pyStrInt_ne_NA _)
      · intro hh
        exact absurd hh (by simp)
  refine ⟨hscan.trans (yearScan_none_iff.trans (noYear_iff _)), ?_, by rfl⟩
  intro pre mid suf hsplit hshape hmin
  have hdrop : dob.data.drop pre.length = mid ++ suf := by
    rw [hsplit, List.append_assoc, List.drop_left]
  have hsc : yearScan dob.data = some (yearVal mid) := by
    rw [yearScan_some_iff]
    refine ⟨pre.length, ?_, by
      rw [hdrop]
      exact yearAt_of_shape hshape⟩
    intro j hj
    rcases hy : yearAt (dob.data.drop j) with _ | y
    · rfl
    · exfalso
      obtain ⟨mid2, suf2, hms, hshape2, -⟩ := yearAt_some_shape hy
      have hsplit2 : dob.data = dob.data.take j ++ mid2 ++ suf2 := by
        rw [List.append_assoc, ← hms, List.take_append_drop]
      have hlen := hmin _ _ _ hsplit2 hshape2
      have hj_le : j ≤ dob.data.length := by
        have hld := List.length_drop j dob.data
        rw [hms] at hld
        obtain ⟨c1, c2, c3, c4, hm2, -, -, -⟩ := hshape2
        rw [hm2] at hld
        simp at hld
        have hdl : dob.data.length = dob.length := rfl
        omega
      rw [List.length_take] at hlen
      omega
  unfold parse_age
  rw [hsc]

/-- C10 (witness): for `"x1984y"` the minimal decomposition sits after
the single-character prefix `"x"`, and the age at clock year 2025 is
`"41"`. -/
theorem C10_parse_age_years_witness :
    parse_age 2025 "x1984y" = "41" := by
  have hdata : ("x1984y" : String).data = ['x', '1', '9', '8', '4', 'y'] := by
    decide
  have hmin : ∀ pre2 mid2 suf2,
      ("x1984y" : String).data = pre2 ++ mid2 ++ suf2 →
      yearShape mid2 → ("x" : String).data.length ≤ pre2.length := by
    intro pre2 mid2 suf2 hsplit hshape
    obtain ⟨c1, c2, c3, c4, hm, h12, -, -⟩ := hshape
    by_cases hp : pre2.length = 0
    · exfalso
      have hpre2 : pre2 = [] := List.length_eq_zero.mp hp
      subst hpre2
      rw [hm, hdata] at hsplit
      simp at hsplit
      obtain ⟨hc1, -⟩ := hsplit
      rcases h12 with ⟨h1, -⟩ | ⟨h1, -⟩
      · rw [h1] at hc1
        exact absurd hc1 (by decide)
      · rw [h1] at hc1
        exact absurd hc1 (by decide)
    · have : ("x" : String).data.length = 1 := by decide
      omega
  have h := (C10_parse_age_years 2025 "x1984y").2.1 "x".data "1984".data
    "y".data (by decide)
    ⟨'1', '9', '8', '4', rfl, Or.inl ⟨rfl, rfl⟩, by decide, by decide⟩ hmin
  rw [h]
  decide

end Crawler